import Mathlib

/-!
Verification of the pod-security-policy template propagation controller
(pkg/controllers/user/rbac/podsecuritypolicy/template.go).

The Go file is embedded shallowly: Kubernetes objects become structures,
Go maps become association lists wrapped in Option (none models a nil map),
the informer cache and the remote stores become lists, and the three
lifecycle operations become interpreters that consume an abstract oracle
deciding the result of each fallible call (index lookups and store
reads/writes) and record a trace of the store calls they issue.
-/

/-- The opaque policy specification blob carried by a template and mirrored
onto derived policies (`PodSecurityPolicySpec`). Only one representative
field is modelled; the controller copies the whole value opaquely. -/
structure PSPSpec where
  allowPrivileged : Bool
deriving DecidableEq

/-- A `PodSecurityPolicyTemplate` (the management template object). -/
structure Template where
  name : String
  resourceVersion : String
  spec : PSPSpec
deriving DecidableEq

/-- A Go `map[string]string` of object annotations; `none` models a nil map. -/
abbrev GoAnnotations := Option (List (String × String))

/-- A `policy/v1beta1.PodSecurityPolicy` (a derived policy object). -/
structure PodSecurityPolicy where
  name : String
  annotations : GoAnnotations
  spec : PSPSpec
deriving DecidableEq

/-- An `rbac/v1.ClusterRole` (a derived role object). -/
structure ClusterRole where
  name : String
  namespaceName : String
  annotations : GoAnnotations
deriving DecidableEq

/-- An untyped object held by an informer cache (Go `interface\x7b\x7d`):
either a pod security policy, a cluster role, or some other value. -/
inductive K8sObject where
  | psp (p : PodSecurityPolicy)
  | clusterRole (r : ClusterRole)
  | other
deriving DecidableEq

/-- First value bound to a key in an association list, or "" (Go map read
returns the zero value for a missing key). -/
def annLookup : List (String × String) → String → String
  | [], _ => ""
  | kv :: rest, k => if kv.1 = k then kv.2 else annLookup rest k

/-- Go map read `m[k]`: a read from a nil map yields the zero value "". -/
def annGet (m : GoAnnotations) (k : String) : String :=
  match m with
  | none => ""
  | some l => annLookup l k

/-- Go map write `m[k] = v`: writing to a nil map is a run-time panic,
modelled as `none`; otherwise the binding for `k` is replaced. -/
def annSet (m : GoAnnotations) (k v : String) : Option GoAnnotations :=
  match m with
  | none => none
  | some l => some (some ((k, v) :: l))

/-- Modelled from the spec: the parent annotation key naming the owning
template; the constant `podSecurityPolicyTemplateParentAnnotation` is
declared elsewhere in the Go package (not among the provided sources). -/
def podSecurityPolicyTemplateParentAnnotationKey : String :=
  "serviceaccount.cluster.cattle.io/pod-security"

/-- Modelled from the spec: the source-version annotation key recording the
template version last synchronized from; the constant
`podSecurityPolicyTemplateVersionAnnotation` is declared elsewhere in the
Go package (not among the provided sources). It is distinct from the
parent annotation key. -/
def podSecurityPolicyTemplateVersionAnnotationKey : String :=
  "serviceaccount.cluster.cattle.io/pod-security-version"

/-- Index extractor `policyByPSPTParentAnnotation`: a single-element key
sequence holding the parent annotation value of a pod security policy,
or the empty sequence for a non-policy object or an absent/empty parent
annotation. -/
def policyByPSPTParentAnnotation (obj : K8sObject) : List String :=
  match obj with
  | K8sObject.psp policy =>
    if annGet policy.annotations podSecurityPolicyTemplateParentAnnotationKey = "" then []
    else [annGet policy.annotations podSecurityPolicyTemplateParentAnnotationKey]
  | _ => []

/-- Index extractor `clusterRoleByPSPTName`: a single-element key sequence
holding the parent annotation value of a cluster role, or the empty
sequence for a non-role object or an absent/empty parent annotation. -/
def clusterRoleByPSPTName (obj : K8sObject) : List String :=
  match obj with
  | K8sObject.clusterRole clusterRole =>
    if annGet clusterRole.annotations podSecurityPolicyTemplateParentAnnotationKey = "" then []
    else [annGet clusterRole.annotations podSecurityPolicyTemplateParentAnnotationKey]
  | _ => []

/-- `cache.Indexer.ByIndex`: the cached objects whose index-function output
contains the key. -/
def byIndex (indexFn : K8sObject → List String) (cache : List K8sObject) (key : String) :
    List K8sObject :=
  match cache with
  | [] => []
  | o :: rest =>
    if key ∈ indexFn o then o :: byIndex indexFn rest key else byIndex indexFn rest key

/-- First policy with the given name in a policy store. -/
def findPolicy : List PodSecurityPolicy → String → Option PodSecurityPolicy
  | [], _ => none
  | p :: rest, n => if p.name = n then some p else findPolicy rest n

/-- Whether a policy store holds a policy with the given name. -/
def hasPolicyName : List PodSecurityPolicy → String → Bool
  | [], _ => false
  | p :: rest, n => if p.name = n then true else hasPolicyName rest n

/-- Replace every policy with the written object's name by the written object. -/
def replacePolicy : List PodSecurityPolicy → PodSecurityPolicy → List PodSecurityPolicy
  | [], _ => []
  | p :: rest, w => (if p.name = w.name then w else p) :: replacePolicy rest w

/-- Effect on the remote policy store of a successful `Update` call:
replace the object of the same name (or add it when absent). -/
def upsertPolicy (s : List PodSecurityPolicy) (w : PodSecurityPolicy) :
    List PodSecurityPolicy :=
  if hasPolicyName s w.name then replacePolicy s w else s ++ [w]

/-- Effect on the remote policy store of a successful `Delete` call. -/
def deletePolicyByName : List PodSecurityPolicy → String → List PodSecurityPolicy
  | [], _ => []
  | p :: rest, n =>
    if p.name = n then deletePolicyByName rest n else p :: deletePolicyByName rest n

/-- First cluster role with the given namespace and name in a role store. -/
def findClusterRole : List ClusterRole → String → String → Option ClusterRole
  | [], _, _ => none
  | r :: rest, ns, n =>
    if r.namespaceName = ns ∧ r.name = n then some r else findClusterRole rest ns n

/-- Effect on the remote role store of a successful `DeleteNamespaced` call. -/
def deleteClusterRoleNamespaced : List ClusterRole → String → String → List ClusterRole
  | [], _, _ => []
  | r :: rest, ns, n =>
    if r.namespaceName = ns ∧ r.name = n then deleteClusterRoleNamespaced rest ns n
    else r :: deleteClusterRoleNamespaced rest ns n

/-- Delete, in order, every listed name from a policy store. -/
def deleteAllPolicies (store : List PodSecurityPolicy) : List String → List PodSecurityPolicy
  | [] => store
  | n :: rest => deleteAllPolicies (deletePolicyByName store n) rest

/-- Names of the pod security policies among a list of cached objects. -/
def pspNames : List K8sObject → List String
  | [] => []
  | K8sObject.psp p :: rest => p.name :: pspNames rest
  | K8sObject.clusterRole _ :: rest => pspNames rest
  | K8sObject.other :: rest => pspNames rest

/-- Modelled from the spec: the outcome of one remote store call as decided
by the external object-store client — success, a not-found rejection, or
any other failure. -/
inductive StoreRes where
  | ok
  | notFound
  | err
deriving DecidableEq

/-- Modelled from the spec: the environment's schedule of store-call
outcomes, one per fallible operation of an invocation, in issue order. -/
abbrev Oracle := Nat → StoreRes

/-- A store call issued by the controller, as recorded in a trace. -/
inductive StoreCall where
  | updatePolicy (p : PodSecurityPolicy)
  | deletePolicy (name : String)
  | deleteClusterRole (namespaceName name : String)
deriving DecidableEq

/-- The error paths of the Go code: the four wrapped store/lookup errors
plus the two run-time panics (failed type assertion, write to nil map). -/
inductive SyncErr where
  | gettingPolicies
  | updatingPsp
  | gettingClusterRoles
  | deletingPolicy
  | deletingClusterRole
  | castPanic
  | nilMapPanic
deriving DecidableEq

/-- The `(runtime.Object, error)` pair returned by a lifecycle operation;
a Go nil object is `ok none`. -/
inductive LifecycleResult where
  | ok (obj : Option Template)
  | fail (e : SyncErr)
deriving DecidableEq

/-- The shared environment of one lifecycle invocation: the two informer
caches read through the indexer, and the two remote stores. -/
structure SyncState where
  policyCache : List K8sObject
  roleCache : List K8sObject
  policyStore : List PodSecurityPolicy
  roleStore : List ClusterRole
deriving DecidableEq

/-- The observable outcome of one lifecycle invocation: the post state,
the trace of store calls issued, and the returned object or error. -/
structure RunOut where
  state : SyncState
  trace : List StoreCall
  res : LifecycleResult
deriving DecidableEq

/-- Intermediate result of one of the controller's loops: the next oracle
position, the trace so far, the store so far, and an error if the loop
aborted. -/
structure LoopOut (α : Type) where
  nextOp : Nat
  trace : List StoreCall
  store : α
  err : Option SyncErr
deriving DecidableEq

/-- The body of the stale branch of `Updated`: `policy.DeepCopy()`, then
`newPolicy.Spec = obj.Spec`, then
`newPolicy.Annotations[versionKey] = obj.ResourceVersion` (a panic,
modelled as `none`, when the copied annotation map is nil). -/
def syncPolicyToTemplate (policy : PodSecurityPolicy) (obj : Template) :
    Option PodSecurityPolicy :=
  match annSet policy.annotations podSecurityPolicyTemplateVersionAnnotationKey
      obj.resourceVersion with
  | none => none
  | some anns => some { policy with spec := obj.spec, annotations := anns }

/-- The loop of `Lifecycle.Updated`: for each indexed object, assert it is a
pod security policy, skip it when its source-version annotation already
equals the template's resource version, and otherwise write the synced
deep copy back through the store client. -/
def updatedLoop (oracle : Oracle) (obj : Template) :
    List K8sObject → Nat → List StoreCall → List PodSecurityPolicy →
    LoopOut (List PodSecurityPolicy)
  | [], k, tr, store => ⟨k, tr, store, none⟩
  | o :: rest, k, tr, store =>
    match o with
    | K8sObject.psp policy =>
      if annGet policy.annotations podSecurityPolicyTemplateVersionAnnotationKey
          = obj.resourceVersion then
        updatedLoop oracle obj rest k tr store
      else
        match syncPolicyToTemplate policy obj with
        | none => ⟨k, tr, store, some SyncErr.nilMapPanic⟩
        | some newPolicy =>
          match oracle k with
          | StoreRes.ok =>
            updatedLoop oracle obj rest (k + 1)
              (tr ++ [StoreCall.updatePolicy newPolicy]) (upsertPolicy store newPolicy)
          | _ => ⟨k + 1, tr ++ [StoreCall.updatePolicy newPolicy], store,
              some SyncErr.updatingPsp⟩
    | _ => ⟨k, tr, store, some SyncErr.castPanic⟩

/-- Wrap the loop outcome of `Updated` into the returned pair: on success
the template itself is returned, on failure the wrapped error. -/
def finishUpdated (st : SyncState) (obj : Template)
    (out : LoopOut (List PodSecurityPolicy)) : RunOut :=
  match out.err with
  | none => ⟨{ st with policyStore := out.store }, out.trace,
      LifecycleResult.ok (some obj)⟩
  | some e => ⟨{ st with policyStore := out.store }, out.trace, LifecycleResult.fail e⟩

/-- `Lifecycle.Create`: returns `nil, nil` and touches nothing. -/
def Lifecycle.Create (st : SyncState) (obj : Template) : RunOut :=
  ⟨st, [], LifecycleResult.ok none⟩

/-- `Lifecycle.Updated`: look up the policies indexed under the template's
name (oracle position 0 decides the lookup), then run the update loop. -/
def Lifecycle.Updated (oracle : Oracle) (st : SyncState) (obj : Template) : RunOut :=
  match oracle 0 with
  | StoreRes.ok =>
    finishUpdated st obj
      (updatedLoop oracle obj
        (byIndex policyByPSPTParentAnnotation st.policyCache obj.name) 1 [] st.policyStore)
  | _ => ⟨st, [], LifecycleResult.fail SyncErr.gettingPolicies⟩

/-- The policy-deletion loop of `Lifecycle.Remove`: delete each indexed
policy by name; any delete error (a not-found included) aborts. -/
def removePolicyLoop (oracle : Oracle) :
    List K8sObject → Nat → List StoreCall → List PodSecurityPolicy →
    LoopOut (List PodSecurityPolicy)
  | [], k, tr, store => ⟨k, tr, store, none⟩
  | o :: rest, k, tr, store =>
    match o with
    | K8sObject.psp policy =>
      match oracle k with
      | StoreRes.ok =>
        removePolicyLoop oracle rest (k + 1)
          (tr ++ [StoreCall.deletePolicy policy.name])
          (deletePolicyByName store policy.name)
      | _ => ⟨k + 1, tr ++ [StoreCall.deletePolicy policy.name], store,
          some SyncErr.deletingPolicy⟩
    | _ => ⟨k, tr, store, some SyncErr.castPanic⟩

/-- The role-deletion loop of `Lifecycle.Remove`: delete each indexed
cluster role by namespace and name; any delete error aborts. -/
def removeRoleLoop (oracle : Oracle) :
    List K8sObject → Nat → List StoreCall → List ClusterRole →
    LoopOut (List ClusterRole)
  | [], k, tr, store => ⟨k, tr, store, none⟩
  | o :: rest, k, tr, store =>
    match o with
    | K8sObject.clusterRole clusterRole =>
      match oracle k with
      | StoreRes.ok =>
        removeRoleLoop oracle rest (k + 1)
          (tr ++ [StoreCall.deleteClusterRole clusterRole.namespaceName clusterRole.name])
          (deleteClusterRoleNamespaced store clusterRole.namespaceName clusterRole.name)
      | _ => ⟨k + 1,
          tr ++ [StoreCall.deleteClusterRole clusterRole.namespaceName clusterRole.name],
          store, some SyncErr.deletingClusterRole⟩
    | _ => ⟨k, tr, store, some SyncErr.castPanic⟩

/-- Wrap the role-loop outcome of `Remove` into the returned pair. -/
def finishRemoveRoles (st : SyncState) (obj : Template)
    (pout : LoopOut (List PodSecurityPolicy)) (rout : LoopOut (List ClusterRole)) :
    RunOut :=
  match rout.err with
  | none => ⟨{ st with policyStore := pout.store, roleStore := rout.store },
      rout.trace, LifecycleResult.ok (some obj)⟩
  | some e => ⟨{ st with policyStore := pout.store, roleStore := rout.store },
      rout.trace, LifecycleResult.fail e⟩

/-- After the policy-deletion loop of `Remove`: on loop failure surface the
error; otherwise look up the indexed cluster roles (next oracle position)
and run the role-deletion loop. -/
def finishRemovePolicies (oracle : Oracle) (st : SyncState) (obj : Template)
    (pout : LoopOut (List PodSecurityPolicy)) : RunOut :=
  match pout.err with
  | some e => ⟨{ st with policyStore := pout.store }, pout.trace, LifecycleResult.fail e⟩
  | none =>
    match oracle pout.nextOp with
    | StoreRes.ok =>
      finishRemoveRoles st obj pout
        (removeRoleLoop oracle (byIndex clusterRoleByPSPTName st.roleCache obj.name)
          (pout.nextOp + 1) pout.trace st.roleStore)
    | _ => ⟨{ st with policyStore := pout.store }, pout.trace,
        LifecycleResult.fail SyncErr.gettingClusterRoles⟩

/-- `Lifecycle.Remove`: look up and delete the indexed policies, then look
up and delete the indexed cluster roles; oracle position 0 decides the
policy lookup. -/
def Lifecycle.Remove (oracle : Oracle) (st : SyncState) (obj : Template) : RunOut :=
  match oracle 0 with
  | StoreRes.ok =>
    finishRemovePolicies oracle st obj
      (removePolicyLoop oracle
        (byIndex policyByPSPTParentAnnotation st.policyCache obj.name) 1 [] st.policyStore)
  | _ => ⟨st, [], LifecycleResult.fail SyncErr.gettingPolicies⟩

/-- Modelled from the spec: how the external change-notification subsystem
folds one observed store write into a cached object — an update event
replaces the cached policy of the same name. -/
def applyWriteToObj (o : K8sObject) (c : StoreCall) : K8sObject :=
  match c with
  | StoreCall.updatePolicy p =>
    match o with
    | K8sObject.psp q => if q.name = p.name then K8sObject.psp p else o
    | _ => o
  | _ => o

/-- Modelled from the spec: a cached object after the change-notification
subsystem has delivered every write of a trace, in order. -/
def syncObj : List StoreCall → K8sObject → K8sObject
  | [], o => o
  | c :: rest, o => syncObj rest (applyWriteToObj o c)

/-- Modelled from the spec: the informer cache after the
change-notification subsystem has delivered every write of a trace. -/
def syncCache (cache : List K8sObject) (tr : List StoreCall) : List K8sObject :=
  cache.map (syncObj tr)

/-- Modelled from the spec: the environment of a second invocation once
the change-notification subsystem has caught up with the writes of a
first invocation's outcome. -/
def syncedState (st : SyncState) (out : RunOut) : SyncState :=
  { st with policyCache := syncCache st.policyCache out.trace,
            policyStore := out.state.policyStore }

/-! ### Basic lemmas about the indexer and the store helpers -/

theorem mem_byIndex {f : K8sObject → List String} {cache : List K8sObject}
    {key : String} {o : K8sObject} :
    o ∈ byIndex f cache key ↔ o ∈ cache ∧ key ∈ f o := by
  induction cache with
  | nil => simp [byIndex]
  | cons a rest ih =>
    simp only [byIndex]
    by_cases h : key ∈ f a
    · rw [if_pos h]
      simp only [List.mem_cons, ih]
      constructor
      · rintro (ha | ⟨hm, hk⟩)
        · exact ⟨Or.inl ha, ha ▸ h⟩
        · exact ⟨Or.inr hm, hk⟩
      · rintro ⟨(ha | hm), hk⟩
        · exact Or.inl ha
        · exact Or.inr ⟨hm, hk⟩
    · rw [if_neg h, ih]
      simp only [List.mem_cons]
      constructor
      · rintro ⟨hm, hk⟩
        exact ⟨Or.inr hm, hk⟩
      · rintro ⟨(ha | hm), hk⟩
        · exact absurd (ha ▸ hk) h
        · exact ⟨hm, hk⟩

theorem mem_byIndex_policy {cache : List K8sObject} {key : String} {o : K8sObject}
    (h : o ∈ byIndex policyByPSPTParentAnnotation cache key) :
    o ∈ cache ∧ ∃ p, o = K8sObject.psp p ∧
      annGet p.annotations podSecurityPolicyTemplateParentAnnotationKey = key ∧ key ≠ "" := by
  obtain ⟨hm, hk⟩ := mem_byIndex.mp h
  refine ⟨hm, ?_⟩
  cases o with
  | psp p =>
    refine ⟨p, rfl, ?_⟩
    by_cases he : annGet p.annotations podSecurityPolicyTemplateParentAnnotationKey = ""
    · rw [ policyByPSPTParentAnnotation, if_pos he] at hk
      exact absurd hk (List.not_mem_nil key)
    · rw [ policyByPSPTParentAnnotation, if_neg he] at hk
      rw [List.mem_singleton] at hk
      exact ⟨hk.symm, by rw [hk]; exact he⟩
  | clusterRole r => exact absurd hk (by simp [ policyByPSPTParentAnnotation])
  | other => exact absurd hk (by simp [ policyByPSPTParentAnnotation])

theorem mem_byIndex_role {cache : List K8sObject} {key : String} {o : K8sObject}
    (h : o ∈ byIndex clusterRoleByPSPTName cache key) :
    o ∈ cache ∧ ∃ r, o = K8sObject.clusterRole r ∧
      annGet r.annotations podSecurityPolicyTemplateParentAnnotationKey = key ∧ key ≠ "" := by
  obtain ⟨hm, hk⟩ := mem_byIndex.mp h
  refine ⟨hm, ?_⟩
  cases o with
  | psp p => exact absurd hk (by simp [clusterRoleByPSPTName])
  | clusterRole r =>
    refine ⟨r, rfl, ?_⟩
    by_cases he : annGet r.annotations podSecurityPolicyTemplateParentAnnotationKey = ""
    · rw [clusterRoleByPSPTName, if_pos he] at hk
      exact absurd hk (List.not_mem_nil key)
    · rw [clusterRoleByPSPTName, if_neg he] at hk
      rw [List.mem_singleton] at hk
      exact ⟨hk.symm, by rw [hk]; exact he⟩
  | other => exact absurd hk (by simp [clusterRoleByPSPTName])

theorem annGet_ne_of_ne_empty {m : GoAnnotations} {k v : String}
    (h : annGet m k = v) (hv : v ≠ "") : m ≠ none := by
  intro hnone
  rw [hnone] at h
  simp only [annGet] at h
  exact hv h.symm

theorem annGet_of_annSet {m m' : GoAnnotations} {k v : String}
    (h : annSet m k v = some m') : annGet m' k = v := by
  cases m with
  | none => exact absurd h (by simp [annSet])
  | some l =>
    rw [annSet] at h
    cases h
    simp [annGet, annLookup]

theorem annSet_of_ne_none {m : GoAnnotations} (k v : String) (h : m ≠ none) :
    ∃ m', annSet m k v = some m' := by
  cases m with
  | none => exact absurd rfl h
  | some l => exact ⟨some ((k, v) :: l), rfl⟩

theorem annSet_eq_none {m : GoAnnotations} {k v : String}
    (h : annSet m k v = none) : m = none := by
  cases m with
  | none => rfl
  | some l => exact absurd h (by simp [annSet])

theorem syncPolicyToTemplate_eq_some {p q : PodSecurityPolicy} {obj : Template}
    (h : syncPolicyToTemplate p obj = some q) :
    q.name = p.name ∧ q.spec = obj.spec ∧
      annGet q.annotations podSecurityPolicyTemplateVersionAnnotationKey
        = obj.resourceVersion := by
  rw [syncPolicyToTemplate] at h
  cases hset : annSet p.annotations podSecurityPolicyTemplateVersionAnnotationKey
      obj.resourceVersion with
  | none => rw [hset] at h; exact absurd h (by simp)
  | some anns =>
    rw [hset] at h
    cases h
    exact ⟨rfl, rfl, annGet_of_annSet hset⟩

theorem syncPolicyToTemplate_eq_none {p : PodSecurityPolicy} {obj : Template}
    (h : syncPolicyToTemplate p obj = none) : p.annotations = none := by
  rw [syncPolicyToTemplate] at h
  cases hset : annSet p.annotations podSecurityPolicyTemplateVersionAnnotationKey
      obj.resourceVersion with
  | none => exact annSet_eq_none hset
  | some anns => rw [hset] at h; exact absurd h (by simp)

theorem syncPolicyToTemplate_isSome {p : PodSecurityPolicy} (obj : Template)
    (h : p.annotations ≠ none) : ∃ q, syncPolicyToTemplate p obj = some q := by
  obtain ⟨m', hm'⟩ := annSet_of_ne_none
    podSecurityPolicyTemplateVersionAnnotationKey obj.resourceVersion h
  exact ⟨{ p with spec := obj.spec, annotations := m' }, by rw [syncPolicyToTemplate, hm']⟩

theorem findPolicy_replace_self :
    ∀ {s : List PodSecurityPolicy} {w : PodSecurityPolicy},
      hasPolicyName s w.name = true → findPolicy (replacePolicy s w) w.name = some w := by
  intro s
  induction s with
  | nil => intro w h; exact absurd h (by rw [hasPolicyName]; simp)
  | cons p rest ih =>
    intro w h
    rw [replacePolicy]
    by_cases hp : p.name = w.name
    · rw [if_pos hp, findPolicy, if_pos rfl]
    · rw [if_neg hp, findPolicy, if_neg hp]
      rw [hasPolicyName, if_neg hp] at h
      exact ih h

theorem findPolicy_replace_other :
    ∀ (s : List PodSecurityPolicy) (w : PodSecurityPolicy) (n : String), n ≠ w.name →
      findPolicy (replacePolicy s w) n = findPolicy s n := by
  intro s
  induction s with
  | nil => intro w n _; rfl
  | cons p rest ih =>
    intro w n hn
    rw [replacePolicy]
    by_cases hp : p.name = w.name
    · rw [if_pos hp, findPolicy, if_neg (Ne.symm hn), findPolicy,
        if_neg (fun hpn : p.name = n => hn (hpn ▸ hp))]
      exact ih w n hn
    · rw [if_neg hp, findPolicy, findPolicy]
      by_cases hpn : p.name = n
      · rw [if_pos hpn, if_pos hpn]
      · rw [if_neg hpn, if_neg hpn]
        exact ih w n hn

theorem findPolicy_append_single :
    ∀ {s : List PodSecurityPolicy} {w : PodSecurityPolicy},
      hasPolicyName s w.name = false → findPolicy (s ++ [w]) w.name = some w := by
  intro s
  induction s with
  | nil => intro w _; rw [List.nil_append, findPolicy, if_pos rfl]
  | cons p rest ih =>
    intro w h
    rw [hasPolicyName] at h
    by_cases hp : p.name = w.name
    · rw [if_pos hp] at h; exact absurd h (by simp)
    · rw [if_neg hp] at h
      rw [List.cons_append, findPolicy, if_neg hp]
      exact ih h

theorem findPolicy_append_single_other :
    ∀ (s : List PodSecurityPolicy) (w : PodSecurityPolicy) (n : String), n ≠ w.name →
      findPolicy (s ++ [w]) n = findPolicy s n := by
  intro s
  induction s with
  | nil =>
    intro w n hn
    rw [List.nil_append]
    simp only [findPolicy]
    rw [if_neg (Ne.symm hn)]
  | cons p rest ih =>
    intro w n hn
    rw [List.cons_append, findPolicy, findPolicy]
    by_cases hpn : p.name = n
    · rw [if_pos hpn, if_pos hpn]
    · rw [if_neg hpn, if_neg hpn]
      exact ih w n hn

theorem findPolicy_upsert_self (s : List PodSecurityPolicy) (w : PodSecurityPolicy) :
    findPolicy (upsertPolicy s w) w.name = some w := by
  rw [upsertPolicy]
  by_cases h : hasPolicyName s w.name = true
  · rw [if_pos h]
    exact findPolicy_replace_self h
  · rw [if_neg h]
    exact findPolicy_append_single (Bool.eq_false_iff.mpr h)

theorem findPolicy_upsert_other (s : List PodSecurityPolicy) (w : PodSecurityPolicy)
    (n : String) (hn : n ≠ w.name) :
    findPolicy (upsertPolicy s w) n = findPolicy s n := by
  rw [upsertPolicy]
  by_cases h : hasPolicyName s w.name = true
  · rw [if_pos h]
    exact findPolicy_replace_other s w n hn
  · rw [if_neg h]
    exact findPolicy_append_single_other s w n hn

theorem findPolicy_delete_self (s : List PodSecurityPolicy) (n : String) :
    findPolicy (deletePolicyByName s n) n = none := by
  induction s with
  | nil => rfl
  | cons p rest ih =>
    rw [deletePolicyByName]
    by_cases hp : p.name = n
    · rw [if_pos hp]; exact ih
    · rw [if_neg hp, findPolicy, if_neg hp]; exact ih

theorem findPolicy_delete_of_none {s : List PodSecurityPolicy} {n : String} (m : String)
    (h : findPolicy s n = none) : findPolicy (deletePolicyByName s m) n = none := by
  induction s with
  | nil => rfl
  | cons p rest ih =>
    rw [findPolicy] at h
    by_cases hp : p.name = n
    · rw [if_pos hp] at h; exact absurd h (by simp)
    · rw [if_neg hp] at h
      rw [deletePolicyByName]
      by_cases hm : p.name = m
      · rw [if_pos hm]; exact ih h
      · rw [if_neg hm, findPolicy, if_neg hp]; exact ih h

theorem findClusterRole_delete_self (s : List ClusterRole) (ns n : String) :
    findClusterRole (deleteClusterRoleNamespaced s ns n) ns n = none := by
  induction s with
  | nil => rfl
  | cons r rest ih =>
    rw [deleteClusterRoleNamespaced]
    by_cases hr : r.namespaceName = ns ∧ r.name = n
    · rw [if_pos hr]; exact ih
    · rw [if_neg hr, findClusterRole, if_neg hr]; exact ih

theorem findClusterRole_delete_of_none {s : List ClusterRole} {ns n : String}
    (ns2 n2 : String) (h : findClusterRole s ns n = none) :
    findClusterRole (deleteClusterRoleNamespaced s ns2 n2) ns n = none := by
  induction s with
  | nil => rfl
  | cons r rest ih =>
    rw [findClusterRole] at h
    by_cases hr : r.namespaceName = ns ∧ r.name = n
    · rw [if_pos hr] at h; exact absurd h (by simp)
    · rw [if_neg hr] at h
      rw [deleteClusterRoleNamespaced]
      by_cases hm : r.namespaceName = ns2 ∧ r.name = n2
      · rw [if_pos hm]; exact ih h
      · rw [if_neg hm, findClusterRole, if_neg hr]; exact ih h

/-! ### Lemmas about the update loop -/

/-- The version-stamp guard of `Updated`: the policy's source-version
annotation equals the template's resource version. -/
def policyCurrent (obj : Template) (p : PodSecurityPolicy) : Prop :=
  annGet p.annotations podSecurityPolicyTemplateVersionAnnotationKey = obj.resourceVersion

/-- The store holds, under the given name, a policy whose spec mirrors the
template's and whose source-version annotation equals its version. -/
def convergedAt (obj : Template) (store : List PodSecurityPolicy) (n : String) : Prop :=
  ∃ q, findPolicy store n = some q ∧ q.name = n ∧ q.spec = obj.spec ∧ policyCurrent obj q

theorem updatedLoop_trace_mono (oracle : Oracle) (obj : Template) :
    ∀ (os : List K8sObject) (k : Nat) (tr : List StoreCall)
      (store : List PodSecurityPolicy) (c : StoreCall), c ∈ tr →
      c ∈ (updatedLoop oracle obj os k tr store).trace := by
  intro os
  induction os with
  | nil => intro k tr store c hc; exact hc
  | cons o rest ih =>
    intro k tr store c hc
    cases o with
    | psp policy =>
      simp only [updatedLoop]
      by_cases hv : annGet policy.annotations podSecurityPolicyTemplateVersionAnnotationKey
          = obj.resourceVersion
      · rw [if_pos hv]
        exact ih _ _ _ _ hc
      · rw [if_neg hv]
        cases hs : syncPolicyToTemplate policy obj with
        | none => exact hc
        | some np =>
          simp only [hs]
          cases ho : oracle k with
          | ok => simp only [ho]; exact ih _ _ _ _ (List.mem_append_left _ hc)
          | notFound => simp only [ho]; exact List.mem_append_left _ hc
          | err => simp only [ho]; exact List.mem_append_left _ hc
    | clusterRole r => exact hc
    | other => exact hc

theorem updatedLoop_writes (oracle : Oracle) (obj : Template) :
    ∀ (os : List K8sObject) (k : Nat) (tr : List StoreCall)
      (store : List PodSecurityPolicy) (c : StoreCall),
      c ∈ (updatedLoop oracle obj os k tr store).trace →
      c ∈ tr ∨ ∃ p q, K8sObject.psp p ∈ os ∧
        annGet p.annotations podSecurityPolicyTemplateVersionAnnotationKey
          ≠ obj.resourceVersion ∧
        syncPolicyToTemplate p obj = some q ∧ c = StoreCall.updatePolicy q := by
  intro os
  induction os with
  | nil => intro k tr store c hc; exact Or.inl hc
  | cons o rest ih =>
    intro k tr store c hc
    cases o with
    | psp policy =>
      simp only [updatedLoop] at hc
      by_cases hv : annGet policy.annotations podSecurityPolicyTemplateVersionAnnotationKey
          = obj.resourceVersion
      · rw [if_pos hv] at hc
        rcases ih _ _ _ _ hc with h | ⟨p, q, hm, hst, hs, hcq⟩
        · exact Or.inl h
        · exact Or.inr ⟨p, q, List.mem_cons_of_mem _ hm, hst, hs, hcq⟩
      · rw [if_neg hv] at hc
        cases hs : syncPolicyToTemplate policy obj with
        | none => simp only [hs] at hc; exact Or.inl hc
        | some np =>
          simp only [hs] at hc
          cases ho : oracle k with
          | ok =>
            simp only [ho] at hc
            rcases ih _ _ _ _ hc with h | ⟨p, q, hm, hst, hs2, hcq⟩
            · rcases List.mem_append.mp h with h1 | h2
              · exact Or.inl h1
              · exact Or.inr ⟨policy, np, List.mem_cons_self _ _, hv, hs,
                  List.mem_singleton.mp h2⟩
            · exact Or.inr ⟨p, q, List.mem_cons_of_mem _ hm, hst, hs2, hcq⟩
          | notFound =>
            simp only [ho] at hc
            rcases List.mem_append.mp hc with h1 | h2
            · exact Or.inl h1
            · exact Or.inr ⟨policy, np, List.mem_cons_self _ _, hv, hs,
                List.mem_singleton.mp h2⟩
          | err =>
            simp only [ho] at hc
            rcases List.mem_append.mp hc with h1 | h2
            · exact Or.inl h1
            · exact Or.inr ⟨policy, np, List.mem_cons_self _ _, hv, hs,
                List.mem_singleton.mp h2⟩
    | clusterRole r => exact Or.inl hc
    | other => exact Or.inl hc

theorem updatedLoop_success_writes (oracle : Oracle) (obj : Template) :
    ∀ (os : List K8sObject) (k : Nat) (tr : List StoreCall)
      (store : List PodSecurityPolicy),
      (updatedLoop oracle obj os k tr store).err = none →
      ∀ p, K8sObject.psp p ∈ os →
        annGet p.annotations podSecurityPolicyTemplateVersionAnnotationKey
          ≠ obj.resourceVersion →
        ∃ q, syncPolicyToTemplate p obj = some q ∧
          StoreCall.updatePolicy q ∈ (updatedLoop oracle obj os k tr store).trace := by
  intro os
  induction os with
  | nil => intro k tr store _ p hp _; exact absurd hp (List.not_mem_nil _)
  | cons o rest ih =>
    intro k tr store herr p hp hst
    cases o with
    | psp policy =>
      simp only [updatedLoop] at herr ⊢
      by_cases hv : annGet policy.annotations podSecurityPolicyTemplateVersionAnnotationKey
          = obj.resourceVersion
      · rw [if_pos hv] at herr ⊢
        rcases List.mem_cons.mp hp with he | hm
        · injection he with hpe
          subst hpe
          exact absurd hv hst
        · exact ih _ _ _ herr p hm hst
      · rw [if_neg hv] at herr ⊢
        cases hs : syncPolicyToTemplate policy obj with
        | none => simp only [hs] at herr; exact absurd herr (by simp)
        | some np =>
          simp only [hs] at herr ⊢
          cases ho : oracle k with
          | ok =>
            simp only [ho] at herr ⊢
            rcases List.mem_cons.mp hp with he | hm
            · injection he with hpe
              subst hpe
              exact ⟨np, hs, updatedLoop_trace_mono oracle obj rest _ _ _ _
                (List.mem_append_right _ (List.mem_singleton.mpr rfl))⟩
            · exact ih _ _ _ herr p hm hst
          | notFound => simp only [ho] at herr; exact absurd herr (by simp)
          | err => simp only [ho] at herr; exact absurd herr (by simp)
    | clusterRole r => simp only [updatedLoop] at herr; exact absurd herr (by simp)
    | other => simp only [updatedLoop] at herr; exact absurd herr (by simp)

theorem updatedLoop_convergedAt (oracle : Oracle) (obj : Template) :
    ∀ (os : List K8sObject) (k : Nat) (tr : List StoreCall)
      (store : List PodSecurityPolicy) (n : String), convergedAt obj store n →
      convergedAt obj (updatedLoop oracle obj os k tr store).store n := by
  intro os
  induction os with
  | nil => intro k tr store n h; exact h
  | cons o rest ih =>
    intro k tr store n h
    cases o with
    | psp policy =>
      simp only [updatedLoop]
      by_cases hv : annGet policy.annotations podSecurityPolicyTemplateVersionAnnotationKey
          = obj.resourceVersion
      · rw [if_pos hv]
        exact ih _ _ _ _ h
      · rw [if_neg hv]
        cases hs : syncPolicyToTemplate policy obj with
        | none => exact h
        | some np =>
          simp only [hs]
          cases ho : oracle k with
          | ok =>
            simp only [ho]
            apply ih
            obtain ⟨hname, hspec, hcur⟩ := syncPolicyToTemplate_eq_some hs
            by_cases hn : n = np.name
            · exact ⟨np, by rw [hn]; exact findPolicy_upsert_self store np,
                hn.symm, hspec, hcur⟩
            · obtain ⟨q, hq, hqn, hqs, hqc⟩ := h
              exact ⟨q, by rw [findPolicy_upsert_other store np n hn]; exact hq,
                hqn, hqs, hqc⟩
          | notFound => simp only [ho]; exact h
          | err => simp only [ho]; exact h
    | clusterRole r => exact h
    | other => exact h

theorem updatedLoop_success_converged (oracle : Oracle) (obj : Template) :
    ∀ (os : List K8sObject) (k : Nat) (tr : List StoreCall)
      (store : List PodSecurityPolicy),
      (updatedLoop oracle obj os k tr store).err = none →
      ∀ p, K8sObject.psp p ∈ os →
        annGet p.annotations podSecurityPolicyTemplateVersionAnnotationKey
          ≠ obj.resourceVersion →
        convergedAt obj (updatedLoop oracle obj os k tr store).store p.name := by
  intro os
  induction os with
  | nil => intro k tr store _ p hp _; exact absurd hp (List.not_mem_nil _)
  | cons o rest ih =>
    intro k tr store herr p hp hst
    cases o with
    | psp policy =>
      simp only [updatedLoop] at herr ⊢
      by_cases hv : annGet policy.annotations podSecurityPolicyTemplateVersionAnnotationKey
          = obj.resourceVersion
      · rw [if_pos hv] at herr ⊢
        rcases List.mem_cons.mp hp with he | hm
        · injection he with hpe
          subst hpe
          exact absurd hv hst
        · exact ih _ _ _ herr p hm hst
      · rw [if_neg hv] at herr ⊢
        cases hs : syncPolicyToTemplate policy obj with
        | none => simp only [hs] at herr; exact absurd herr (by simp)
        | some np =>
          simp only [hs] at herr ⊢
          cases ho : oracle k with
          | ok =>
            simp only [ho] at herr ⊢
            rcases List.mem_cons.mp hp with he | hm
            · injection he with hpe
              subst hpe
              apply updatedLoop_convergedAt
              obtain ⟨hname, hspec, hcur⟩ := syncPolicyToTemplate_eq_some hs
              exact ⟨np, by rw [← hname]; exact findPolicy_upsert_self store np,
                hname, hspec, hcur⟩
            · exact ih _ _ _ herr p hm hst
          | notFound => simp only [ho] at herr; exact absurd herr (by simp)
          | err => simp only [ho] at herr; exact absurd herr (by simp)
    | clusterRole r => simp only [updatedLoop] at herr; exact absurd herr (by simp)
    | other => simp only [updatedLoop] at herr; exact absurd herr (by simp)

theorem updatedLoop_all_current (oracle : Oracle) (obj : Template) :
    ∀ (os : List K8sObject) (k : Nat) (tr : List StoreCall)
      (store : List PodSecurityPolicy),
      (∀ o ∈ os, ∃ p, o = K8sObject.psp p ∧
        annGet p.annotations podSecurityPolicyTemplateVersionAnnotationKey
          = obj.resourceVersion) →
      updatedLoop oracle obj os k tr store = ⟨k, tr, store, none⟩ := by
  intro os
  induction os with
  | nil => intro k tr store _; rfl
  | cons o rest ih =>
    intro k tr store h
    obtain ⟨p, rfl, hv⟩ := h o (List.mem_cons_self o rest)
    simp only [updatedLoop]
    rw [if_pos hv]
    exact ih _ _ _ (fun o ho => h o (List.mem_cons_of_mem _ ho))

theorem updatedLoop_no_nil_panic (oracle : Oracle) (obj : Template) :
    ∀ (os : List K8sObject) (k : Nat) (tr : List StoreCall)
      (store : List PodSecurityPolicy),
      (∀ p, K8sObject.psp p ∈ os → p.annotations ≠ none) →
      (updatedLoop oracle obj os k tr store).err ≠ some SyncErr.nilMapPanic := by
  intro os
  induction os with
  | nil => intro k tr store _; simp [updatedLoop]
  | cons o rest ih =>
    intro k tr store h
    cases o with
    | psp policy =>
      simp only [updatedLoop]
      by_cases hv : annGet policy.annotations podSecurityPolicyTemplateVersionAnnotationKey
          = obj.resourceVersion
      · rw [if_pos hv]
        exact ih _ _ _ (fun p hp => h p (List.mem_cons_of_mem _ hp))
      · rw [if_neg hv]
        cases hs : syncPolicyToTemplate policy obj with
        | none =>
          exact absurd (syncPolicyToTemplate_eq_none hs)
            (h policy (List.mem_cons_self _ _))
        | some np =>
          simp only [hs]
          cases ho : oracle k with
          | ok =>
            simp only [ho]
            exact ih _ _ _ (fun p hp => h p (List.mem_cons_of_mem _ hp))
          | notFound => simp only [ho]; simp
          | err => simp only [ho]; simp
    | clusterRole r => simp [updatedLoop]
    | other => simp [updatedLoop]

/-! ### Lemmas about the two deletion loops of Remove -/

theorem removePolicyLoop_trace_mono (oracle : Oracle) :
    ∀ (os : List K8sObject) (k : Nat) (tr : List StoreCall)
      (store : List PodSecurityPolicy) (c : StoreCall), c ∈ tr →
      c ∈ (removePolicyLoop oracle os k tr store).trace := by
  intro os
  induction os with
  | nil => intro k tr store c hc; exact hc
  | cons o rest ih =>
    intro k tr store c hc
    cases o with
    | psp policy =>
      simp only [removePolicyLoop]
      cases ho : oracle k with
      | ok => simp only [ho]; exact ih _ _ _ _ (List.mem_append_left _ hc)
      | notFound => simp only [ho]; exact List.mem_append_left _ hc
      | err => simp only [ho]; exact List.mem_append_left _ hc
    | clusterRole r => exact hc
    | other => exact hc

theorem removePolicyLoop_none_preserved (oracle : Oracle) :
    ∀ (os : List K8sObject) (k : Nat) (tr : List StoreCall)
      (store : List PodSecurityPolicy) (n : String), findPolicy store n = none →
      findPolicy (removePolicyLoop oracle os k tr store).store n = none := by
  intro os
  induction os with
  | nil => intro k tr store n h; exact h
  | cons o rest ih =>
    intro k tr store n h
    cases o with
    | psp policy =>
      simp only [removePolicyLoop]
      cases ho : oracle k with
      | ok => simp only [ho]; exact ih _ _ _ _ (findPolicy_delete_of_none _ h)
      | notFound => simp only [ho]; exact h
      | err => simp only [ho]; exact h
    | clusterRole r => exact h
    | other => exact h

theorem removePolicyLoop_success_deletes (oracle : Oracle) :
    ∀ (os : List K8sObject) (k : Nat) (tr : List StoreCall)
      (store : List PodSecurityPolicy),
      (removePolicyLoop oracle os k tr store).err = none →
      ∀ p, K8sObject.psp p ∈ os →
        StoreCall.deletePolicy p.name ∈ (removePolicyLoop oracle os k tr store).trace ∧
        findPolicy (removePolicyLoop oracle os k tr store).store p.name = none := by
  intro os
  induction os with
  | nil => intro k tr store _ p hp; exact absurd hp (List.not_mem_nil _)
  | cons o rest ih =>
    intro k tr store herr p hp
    cases o with
    | psp policy =>
      simp only [removePolicyLoop] at herr ⊢
      cases ho : oracle k with
      | ok =>
        simp only [ho] at herr ⊢
        rcases List.mem_cons.mp hp with he | hm
        · injection he with hpe
          subst hpe
          refine ⟨removePolicyLoop_trace_mono oracle rest _ _ _ _
            (List.mem_append_right _ (List.mem_singleton.mpr rfl)), ?_⟩
          exact removePolicyLoop_none_preserved oracle rest _ _ _ _
            (findPolicy_delete_self store p.name)
        · exact ih _ _ _ herr p hm
      | notFound => simp only [ho] at herr; exact absurd herr (by simp)
      | err => simp only [ho] at herr; exact absurd herr (by simp)
    | clusterRole r => simp only [removePolicyLoop] at herr; exact absurd herr (by simp)
    | other => simp only [removePolicyLoop] at herr; exact absurd herr (by simp)

theorem removePolicyLoop_trace_shape (oracle : Oracle) :
    ∀ (os : List K8sObject) (k : Nat) (tr : List StoreCall)
      (store : List PodSecurityPolicy),
      ∃ ds, (removePolicyLoop oracle os k tr store).trace = tr ++ ds ∧
        ∀ c ∈ ds, ∃ n, c = StoreCall.deletePolicy n := by
  intro os
  induction os with
  | nil =>
    intro k tr store
    exact ⟨[], (List.append_nil tr).symm, fun c hc => absurd hc (List.not_mem_nil c)⟩
  | cons o rest ih =>
    intro k tr store
    cases o with
    | psp policy =>
      simp only [removePolicyLoop]
      cases ho : oracle k with
      | ok =>
        simp only [ho]
        obtain ⟨ds, htr, hds⟩ := ih (k + 1)
          (tr ++ [StoreCall.deletePolicy policy.name])
          (deletePolicyByName store policy.name)
        refine ⟨StoreCall.deletePolicy policy.name :: ds, ?_, ?_⟩
        · rw [htr, List.append_assoc]
          rfl
        · intro c hc
          rcases List.mem_cons.mp hc with he | hm
          · exact ⟨policy.name, he⟩
          · exact hds c hm
      | notFound =>
        simp only [ho]
        exact ⟨[StoreCall.deletePolicy policy.name], rfl,
          fun c hc => ⟨policy.name, List.mem_singleton.mp hc⟩⟩
      | err =>
        simp only [ho]
        exact ⟨[StoreCall.deletePolicy policy.name], rfl,
          fun c hc => ⟨policy.name, List.mem_singleton.mp hc⟩⟩
    | clusterRole r =>
      exact ⟨[], (List.append_nil tr).symm, fun c hc => absurd hc (List.not_mem_nil c)⟩
    | other =>
      exact ⟨[], (List.append_nil tr).symm, fun c hc => absurd hc (List.not_mem_nil c)⟩

theorem removeRoleLoop_trace_mono (oracle : Oracle) :
    ∀ (os : List K8sObject) (k : Nat) (tr : List StoreCall)
      (store : List ClusterRole) (c : StoreCall), c ∈ tr →
      c ∈ (removeRoleLoop oracle os k tr store).trace := by
  intro os
  induction os with
  | nil => intro k tr store c hc; exact hc
  | cons o rest ih =>
    intro k tr store c hc
    cases o with
    | clusterRole role =>
      simp only [removeRoleLoop]
      cases ho : oracle k with
      | ok => simp only [ho]; exact ih _ _ _ _ (List.mem_append_left _ hc)
      | notFound => simp only [ho]; exact List.mem_append_left _ hc
      | err => simp only [ho]; exact List.mem_append_left _ hc
    | psp p => exact hc
    | other => exact hc

theorem removeRoleLoop_none_preserved (oracle : Oracle) :
    ∀ (os : List K8sObject) (k : Nat) (tr : List StoreCall)
      (store : List ClusterRole) (ns n : String), findClusterRole store ns n = none →
      findClusterRole (removeRoleLoop oracle os k tr store).store ns n = none := by
  intro os
  induction os with
  | nil => intro k tr store ns n h; exact h
  | cons o rest ih =>
    intro k tr store ns n h
    cases o with
    | clusterRole role =>
      simp only [removeRoleLoop]
      cases ho : oracle k with
      | ok => simp only [ho]; exact ih _ _ _ _ _ (findClusterRole_delete_of_none _ _ h)
      | notFound => simp only [ho]; exact h
      | err => simp only [ho]; exact h
    | psp p => exact h
    | other => exact h

theorem removeRoleLoop_success_deletes (oracle : Oracle) :
    ∀ (os : List K8sObject) (k : Nat) (tr : List StoreCall)
      (store : List ClusterRole),
      (removeRoleLoop oracle os k tr store).err = none →
      ∀ r, K8sObject.clusterRole r ∈ os →
        StoreCall.deleteClusterRole r.namespaceName r.name
          ∈ (removeRoleLoop oracle os k tr store).trace ∧
        findClusterRole (removeRoleLoop oracle os k tr store).store
          r.namespaceName r.name = none := by
  intro os
  induction os with
  | nil => intro k tr store _ r hr; exact absurd hr (List.not_mem_nil _)
  | cons o rest ih =>
    intro k tr store herr r hr
    cases o with
    | clusterRole role =>
      simp only [removeRoleLoop] at herr ⊢
      cases ho : oracle k with
      | ok =>
        simp only [ho] at herr ⊢
        rcases List.mem_cons.mp hr with he | hm
        · injection he with hre
          subst hre
          refine ⟨removeRoleLoop_trace_mono oracle rest _ _ _ _
            (List.mem_append_right _ (List.mem_singleton.mpr rfl)), ?_⟩
          exact removeRoleLoop_none_preserved oracle rest _ _ _ _ _
            (findClusterRole_delete_self store r.namespaceName r.name)
        · exact ih _ _ _ herr r hm
      | notFound => simp only [ho] at herr; exact absurd herr (by simp)
      | err => simp only [ho] at herr; exact absurd herr (by simp)
    | psp p => simp only [removeRoleLoop] at herr; exact absurd herr (by simp)
    | other => simp only [removeRoleLoop] at herr; exact absurd herr (by simp)

theorem removeRoleLoop_trace_shape (oracle : Oracle) :
    ∀ (os : List K8sObject) (k : Nat) (tr : List StoreCall)
      (store : List ClusterRole),
      ∃ ds, (removeRoleLoop oracle os k tr store).trace = tr ++ ds ∧
        ∀ c ∈ ds, ∃ ns n, c = StoreCall.deleteClusterRole ns n := by
  intro os
  induction os with
  | nil =>
    intro k tr store
    exact ⟨[], (List.append_nil tr).symm, fun c hc => absurd hc (List.not_mem_nil c)⟩
  | cons o rest ih =>
    intro k tr store
    cases o with
    | clusterRole role =>
      simp only [removeRoleLoop]
      cases ho : oracle k with
      | ok =>
        simp only [ho]
        obtain ⟨ds, htr, hds⟩ := ih (k + 1)
          (tr ++ [StoreCall.deleteClusterRole role.namespaceName role.name])
          (deleteClusterRoleNamespaced store role.namespaceName role.name)
        refine ⟨StoreCall.deleteClusterRole role.namespaceName role.name :: ds, ?_, ?_⟩
        · rw [htr, List.append_assoc]
          rfl
        · intro c hc
          rcases List.mem_cons.mp hc with he | hm
          · exact ⟨role.namespaceName, role.name, he⟩
          · exact hds c hm
      | notFound =>
        simp only [ho]
        exact ⟨[StoreCall.deleteClusterRole role.namespaceName role.name], rfl,
          fun c hc => ⟨role.namespaceName, role.name, List.mem_singleton.mp hc⟩⟩
      | err =>
        simp only [ho]
        exact ⟨[StoreCall.deleteClusterRole role.namespaceName role.name], rfl,
          fun c hc => ⟨role.namespaceName, role.name, List.mem_singleton.mp hc⟩⟩
    | psp p =>
      exact ⟨[], (List.append_nil tr).symm, fun c hc => absurd hc (List.not_mem_nil c)⟩
    | other =>
      exact ⟨[], (List.append_nil tr).symm, fun c hc => absurd hc (List.not_mem_nil c)⟩

theorem byIndex_policy_all_psp (cache : List K8sObject) (key : String) :
    ∀ o ∈ byIndex policyByPSPTParentAnnotation cache key, ∃ p, o = K8sObject.psp p :=
  fun o ho => ((mem_byIndex_policy ho).2).imp (fun _ hp => hp.1)

theorem removePolicyLoop_fail (oracle : Oracle) :
    ∀ (os : List K8sObject) (k : Nat) (tr : List StoreCall)
      (store : List PodSecurityPolicy) (j : Nat),
      (∀ o ∈ os, ∃ p, o = K8sObject.psp p) →
      j < (pspNames os).length →
      (∀ i, i < j → oracle (k + i) = StoreRes.ok) →
      oracle (k + j) ≠ StoreRes.ok →
      removePolicyLoop oracle os k tr store =
        ⟨k + j + 1, tr ++ ((pspNames os).take (j + 1)).map StoreCall.deletePolicy,
          deleteAllPolicies store ((pspNames os).take j), some SyncErr.deletingPolicy⟩ := by
  intro os
  induction os with
  | nil =>
    intro k tr store j _ hj _ _
    rw [pspNames] at hj
    exact absurd hj (by simp)
  | cons o rest ih =>
    intro k tr store j hall hj hok hfail
    obtain ⟨p, rfl⟩ := hall o (List.mem_cons_self o rest)
    cases j with
    | zero =>
      rw [Nat.add_zero] at hfail
      simp only [removePolicyLoop]
      cases ho : oracle k with
      | ok => exact absurd ho hfail
      | notFound => simp [pspNames, deleteAllPolicies]
      | err => simp [pspNames, deleteAllPolicies]
    | succ j' =>
      have h0 : oracle k = StoreRes.ok := by
        have := hok 0 (Nat.succ_pos j')
        rwa [Nat.add_zero] at this
      have hj' : j' < (pspNames rest).length := by
        rw [pspNames, List.length_cons] at hj
        omega
      have hok' : ∀ i, i < j' → oracle (k + 1 + i) = StoreRes.ok := by
        intro i hi
        have := hok (i + 1) (Nat.succ_lt_succ hi)
        rwa [show k + (i + 1) = k + 1 + i by omega] at this
      have hfail' : oracle (k + 1 + j') ≠ StoreRes.ok := by
        rw [show k + 1 + j' = k + (j' + 1) by omega]
        exact hfail
      simp only [removePolicyLoop, h0]
      rw [ih (k + 1) (tr ++ [StoreCall.deletePolicy p.name])
        (deletePolicyByName store p.name) j'
        (fun o ho => hall o (List.mem_cons_of_mem _ ho)) hj' hok' hfail']
      have hnext : k + 1 + j' + 1 = k + (j' + 1) + 1 := by omega
      rw [hnext]
      simp [pspNames, deleteAllPolicies, List.append_assoc]

/-! ### Lemmas about the cache synchronization model -/

theorem applyWriteToObj_cases (o : K8sObject) (c : StoreCall) :
    applyWriteToObj o c = o ∨
      ∃ w, c = StoreCall.updatePolicy w ∧ applyWriteToObj o c = K8sObject.psp w := by
  cases c with
  | updatePolicy w =>
    cases o with
    | psp q =>
      by_cases hq : q.name = w.name
      · exact Or.inr ⟨w, rfl, by simp only [applyWriteToObj]; rw [if_pos hq]⟩
      · exact Or.inl (by simp only [applyWriteToObj]; rw [if_neg hq])
    | clusterRole r => exact Or.inl rfl
    | other => exact Or.inl rfl
  | deletePolicy n => exact Or.inl rfl
  | deleteClusterRole ns n => exact Or.inl rfl

theorem syncObj_cases (tr : List StoreCall) (o : K8sObject) :
    syncObj tr o = o ∨
      ∃ w, StoreCall.updatePolicy w ∈ tr ∧ syncObj tr o = K8sObject.psp w := by
  induction tr generalizing o with
  | nil => exact Or.inl rfl
  | cons c rest ih =>
    rw [syncObj]
    rcases applyWriteToObj_cases o c with h | ⟨w, hc, h⟩
    · rw [h]
      rcases ih o with h2 | ⟨w, hw, h2⟩
      · exact Or.inl h2
      · exact Or.inr ⟨w, List.mem_cons_of_mem _ hw, h2⟩
    · rw [h]
      rcases ih (K8sObject.psp w) with h2 | ⟨w2, hw2, h2⟩
      · exact Or.inr ⟨w, by rw [hc]; exact List.mem_cons_self _ _, h2⟩
      · exact Or.inr ⟨w2, List.mem_cons_of_mem _ hw2, h2⟩

theorem syncObj_hit (tr : List StoreCall) (p w : PodSecurityPolicy)
    (hw : StoreCall.updatePolicy w ∈ tr) (hn : w.name = p.name) :
    ∃ w', StoreCall.updatePolicy w' ∈ tr ∧
      syncObj tr (K8sObject.psp p) = K8sObject.psp w' := by
  induction tr generalizing p w with
  | nil => exact absurd hw (List.not_mem_nil _)
  | cons c rest ih =>
    rw [syncObj]
    rcases List.mem_cons.mp hw with he | hm
    · rw [← he]
      simp only [applyWriteToObj]
      rw [if_pos hn.symm]
      rcases syncObj_cases rest (K8sObject.psp w) with h | ⟨w2, hw2, h⟩
      · exact ⟨w, by rw [he]; exact he ▸ List.mem_cons_self _ _, h⟩
      · exact ⟨w2, List.mem_cons_of_mem _ hw2, h⟩
    · rcases applyWriteToObj_cases (K8sObject.psp p) c with h | ⟨w0, hc, h⟩
      · rw [h]
        obtain ⟨w', hw', hs⟩ := ih p w hm hn
        exact ⟨w', List.mem_cons_of_mem _ hw', hs⟩
      · rw [h]
        rcases syncObj_cases rest (K8sObject.psp w0) with h2 | ⟨w2, hw2, h2⟩
        · exact ⟨w0, by rw [hc]; exact List.mem_cons_self _ _, h2⟩
        · exact ⟨w2, List.mem_cons_of_mem _ hw2, h2⟩

theorem syncCache_current (obj : Template) (cache : List K8sObject) (tr : List StoreCall)
    (hw : ∀ w, StoreCall.updatePolicy w ∈ tr → policyCurrent obj w)
    (hs : ∀ p, K8sObject.psp p ∈ byIndex policyByPSPTParentAnnotation cache obj.name →
      ¬ policyCurrent obj p → ∃ q, syncPolicyToTemplate p obj = some q ∧
        StoreCall.updatePolicy q ∈ tr) :
    ∀ o ∈ byIndex policyByPSPTParentAnnotation (syncCache cache tr) obj.name,
      ∃ p, o = K8sObject.psp p ∧ policyCurrent obj p := by
  intro o ho
  obtain ⟨hmem, p, rfl, hparent, hne⟩ := mem_byIndex_policy ho
  obtain ⟨o0, ho0, hsync⟩ := List.mem_map.mp hmem
  rcases syncObj_cases tr o0 with he | ⟨w, hwmem, he⟩
  · have ho0p : o0 = K8sObject.psp p := by rw [← hsync, he]
    by_cases hc : policyCurrent obj p
    · exact ⟨p, rfl, hc⟩
    · have hpidx : K8sObject.psp p ∈ byIndex policyByPSPTParentAnnotation
          cache obj.name := by
        rw [mem_byIndex]
        refine ⟨ho0p ▸ ho0, ?_⟩
        rw [ policyByPSPTParentAnnotation, hparent, if_neg hne]
        exact List.mem_singleton.mpr rfl
      obtain ⟨q, hq, hqmem⟩ := hs p hpidx hc
      obtain ⟨w', hw', hsw⟩ := syncObj_hit tr p q hqmem (syncPolicyToTemplate_eq_some hq).1
      rw [ho0p] at he
      have hwp : w' = p := by simpa using hsw.symm.trans he
      exact absurd (hwp ▸ hw w' hw') hc
  · have hwp : w = p := by simpa using he.symm.trans hsync
    exact ⟨p, rfl, hwp ▸ hw w hwmem⟩

/-! ### Concrete fixtures used by witnesses and counterexamples -/

/-- A concrete template: name t1, resource version 5. -/
def exTemplate : Template := ⟨"t1", "5", ⟨false⟩⟩

/-- A derived policy parented to t1 with a stale source-version (4) and a
stale spec. -/
def exPolicy : PodSecurityPolicy :=
  ⟨"p1", some [(podSecurityPolicyTemplateParentAnnotationKey, "t1"),
    (podSecurityPolicyTemplateVersionAnnotationKey, "4")], ⟨true⟩⟩

/-- A second derived policy parented to t1 with a stale source-version. -/
def exPolicy2 : PodSecurityPolicy :=
  ⟨"p2", some [(podSecurityPolicyTemplateParentAnnotationKey, "t1"),
    (podSecurityPolicyTemplateVersionAnnotationKey, "3")], ⟨true⟩⟩

/-- A derived policy with a nil annotation map (no parent annotation). -/
def exNoParentPolicy : PodSecurityPolicy := ⟨"p0", none, ⟨true⟩⟩

/-- A derived cluster role parented to t1. -/
def exRole : ClusterRole :=
  ⟨"r1", "ns1", some [(podSecurityPolicyTemplateParentAnnotationKey, "t1")]⟩

/-- A concrete environment: one indexed policy and one indexed role. -/
def exState : SyncState :=
  ⟨[K8sObject.psp exPolicy], [K8sObject.clusterRole exRole], [exPolicy], [exRole]⟩

/-- A concrete environment with two indexed policies. -/
def exState2 : SyncState :=
  ⟨[K8sObject.psp exPolicy, K8sObject.psp exPolicy2], [K8sObject.clusterRole exRole],
    [exPolicy, exPolicy2], [exRole]⟩

/-- The all-success store schedule. -/
def exOracleOk : Oracle := fun _ => StoreRes.ok

/-- A schedule whose lookup succeeds and whose every store call reports
that the target object does not exist. -/
def exOracleNotFound : Oracle := fun i => if i = 0 then StoreRes.ok else StoreRes.notFound

/-! ### C4 — Create -/

/-- Claim C4, counterexample: `Create` does not return the template; on a
concrete input its result is `ok none` (Go `nil, nil`), not the template
object. -/
theorem C4_counterexample :
    (Lifecycle.Create exState exTemplate).res ≠ LifecycleResult.ok (some exTemplate) ∧
    (Lifecycle.Create exState exTemplate).res = LifecycleResult.ok none := by
  exact ⟨by decide, rfl⟩

/-- Claim C4 (amended): `Create` is a no-op — it issues no store calls and
leaves the environment unchanged — but it returns a nil object (`ok none`)
together with a nil error, rather than the template itself. -/
theorem C4_create_noop (st : SyncState) (obj : Template) :
    Lifecycle.Create st obj = ⟨st, [], LifecycleResult.ok none⟩ := rfl

/-! ### C5 — the index extractors -/

/-- Claim C5: each index extractor returns the single-element key sequence
holding the parent-annotation value when that value is present and
non-empty, and the empty sequence when the annotation is absent or empty
or the object has the wrong type; consequently an object reachable
through the index always carries a non-empty parent annotation equal to
its key, so an object with an empty or missing parent annotation is never
indexed under any key, the empty key included. -/
theorem C5_index_extractors :
    (∀ p : PodSecurityPolicy,
      annGet p.annotations podSecurityPolicyTemplateParentAnnotationKey ≠ "" →
      policyByPSPTParentAnnotation (K8sObject.psp p)
        = [annGet p.annotations podSecurityPolicyTemplateParentAnnotationKey]) ∧
    (∀ p : PodSecurityPolicy,
      annGet p.annotations podSecurityPolicyTemplateParentAnnotationKey = "" →
      policyByPSPTParentAnnotation (K8sObject.psp p) = []) ∧
    (∀ o : K8sObject, (∀ p, o ≠ K8sObject.psp p) →
      policyByPSPTParentAnnotation o = []) ∧
    (∀ r : ClusterRole,
      annGet r.annotations podSecurityPolicyTemplateParentAnnotationKey ≠ "" →
      clusterRoleByPSPTName (K8sObject.clusterRole r)
        = [annGet r.annotations podSecurityPolicyTemplateParentAnnotationKey]) ∧
    (∀ r : ClusterRole,
      annGet r.annotations podSecurityPolicyTemplateParentAnnotationKey = "" →
      clusterRoleByPSPTName (K8sObject.clusterRole r) = []) ∧
    (∀ o : K8sObject, (∀ r, o ≠ K8sObject.clusterRole r) →
      clusterRoleByPSPTName o = []) ∧
    (∀ (cache : List K8sObject) (key : String) (o : K8sObject),
      o ∈ byIndex policyByPSPTParentAnnotation cache key →
      ∃ p, o = K8sObject.psp p ∧
        annGet p.annotations podSecurityPolicyTemplateParentAnnotationKey ≠ "" ∧
        annGet p.annotations podSecurityPolicyTemplateParentAnnotationKey = key) ∧
    (∀ (cache : List K8sObject) (key : String) (o : K8sObject),
      o ∈ byIndex clusterRoleByPSPTName cache key →
      ∃ r, o = K8sObject.clusterRole r ∧
        annGet r.annotations podSecurityPolicyTemplateParentAnnotationKey ≠ "" ∧
        annGet r.annotations podSecurityPolicyTemplateParentAnnotationKey = key) := by
  refine ⟨?_, ?_, ?_, ?_, ?_, ?_, ?_, ?_⟩
  · intro p h
    simp only [ policyByPSPTParentAnnotation]
    rw [if_neg h]
  · intro p h
    simp only [ policyByPSPTParentAnnotation]
    rw [if_pos h]
  · intro o h
    cases o with
    | psp p => exact absurd rfl (h p)
    | clusterRole r => rfl
    | other => rfl
  · intro r h
    simp only [clusterRoleByPSPTName]
    rw [if_neg h]
  · intro r h
    simp only [clusterRoleByPSPTName]
    rw [if_pos h]
  · intro o h
    cases o with
    | psp p => rfl
    | clusterRole r => exact absurd rfl (h r)
    | other => rfl
  · intro cache key o ho
    obtain ⟨_, p, he, hk, hne⟩ := mem_byIndex_policy ho
    exact ⟨p, he, by rw [hk]; exact hne, hk⟩
  · intro cache key o ho
    obtain ⟨_, r, he, hk, hne⟩ := mem_byIndex_role ho
    exact ⟨r, he, by rw [hk]; exact hne, hk⟩

/-- Witness for C5 at concrete objects: the extractors index the concrete
policy and role under t1, ignore an annotation-less policy and a
wrongly-typed object, and the concrete lookup only surfaces objects with
the parent annotation t1. -/
theorem C5_witness :
    policyByPSPTParentAnnotation (K8sObject.psp exPolicy) = ["t1"] ∧
    clusterRoleByPSPTName (K8sObject.clusterRole exRole) = ["t1"] ∧
    policyByPSPTParentAnnotation (K8sObject.psp exNoParentPolicy) = [] ∧
    policyByPSPTParentAnnotation K8sObject.other = [] ∧
    (∃ p, K8sObject.psp exPolicy = K8sObject.psp p ∧
      annGet p.annotations podSecurityPolicyTemplateParentAnnotationKey ≠ "" ∧
      annGet p.annotations podSecurityPolicyTemplateParentAnnotationKey = "t1") := by
  refine ⟨?_, ?_, ?_, ?_, ?_⟩
  · exact (C5_index_extractors.1 exPolicy (by decide)).trans (by decide)
  · exact (C5_index_extractors.2.2.2.1 exRole (by decide)).trans (by decide)
  · exact C5_index_extractors.2.1 exNoParentPolicy (by decide)
  · exact C5_index_extractors.2.2.1 K8sObject.other (by intro p h; cases h)
  · exact C5_index_extractors.2.2.2.2.2.2.1 [K8sObject.psp exPolicy] "t1"
      (K8sObject.psp exPolicy) (by decide)

/-! ### Destructors for a successful invocation -/

theorem Updated_ok_destruct (oracle : Oracle) (st : SyncState) (obj : Template)
    (r : Option Template)
    (hok : (Lifecycle.Updated oracle st obj).res = LifecycleResult.ok r) :
    oracle 0 = StoreRes.ok ∧
    (updatedLoop oracle obj (byIndex policyByPSPTParentAnnotation st.policyCache obj.name)
      1 [] st.policyStore).err = none ∧
    r = some obj ∧
    (Lifecycle.Updated oracle st obj).trace =
      (updatedLoop oracle obj (byIndex policyByPSPTParentAnnotation st.policyCache obj.name)
        1 [] st.policyStore).trace ∧
    (Lifecycle.Updated oracle st obj).state.policyStore =
      (updatedLoop oracle obj (byIndex policyByPSPTParentAnnotation st.policyCache obj.name)
        1 [] st.policyStore).store := by
  cases h0 : oracle 0 with
  | ok =>
    have hup : Lifecycle.Updated oracle st obj
        = finishUpdated st obj (updatedLoop oracle obj
            (byIndex policyByPSPTParentAnnotation st.policyCache obj.name)
            1 [] st.policyStore) := by
      simp only [Lifecycle.Updated, h0]
    rw [hup] at hok
    cases he : (updatedLoop oracle obj
        (byIndex policyByPSPTParentAnnotation st.policyCache obj.name)
        1 [] st.policyStore).err with
    | none =>
      refine ⟨rfl, rfl, ?_, ?_, ?_⟩
      · simp only [finishUpdated, he, LifecycleResult.ok.injEq] at hok
        exact hok.symm
      · rw [hup]
        simp only [finishUpdated, he]
      · rw [hup]
        simp only [finishUpdated, he]
    | some e =>
      simp only [finishUpdated, he] at hok
      exact absurd hok (by simp)
  | notFound =>
    simp only [Lifecycle.Updated, h0] at hok
    exact absurd hok (by simp)
  | err =>
    simp only [Lifecycle.Updated, h0] at hok
    exact absurd hok (by simp)

theorem Remove_ok_destruct (oracle : Oracle) (st : SyncState) (obj : Template)
    (r : Option Template)
    (hok : (Lifecycle.Remove oracle st obj).res = LifecycleResult.ok r) :
    oracle 0 = StoreRes.ok ∧
    (removePolicyLoop oracle
      (byIndex policyByPSPTParentAnnotation st.policyCache obj.name)
      1 [] st.policyStore).err = none ∧
    (removeRoleLoop oracle (byIndex clusterRoleByPSPTName st.roleCache obj.name)
      ((removePolicyLoop oracle
        (byIndex policyByPSPTParentAnnotation st.policyCache obj.name)
        1 [] st.policyStore).nextOp + 1)
      (removePolicyLoop oracle
        (byIndex policyByPSPTParentAnnotation st.policyCache obj.name)
        1 [] st.policyStore).trace st.roleStore).err = none ∧
    r = some obj ∧
    (Lifecycle.Remove oracle st obj).trace =
      (removeRoleLoop oracle (byIndex clusterRoleByPSPTName st.roleCache obj.name)
        ((removePolicyLoop oracle
          (byIndex policyByPSPTParentAnnotation st.policyCache obj.name)
          1 [] st.policyStore).nextOp + 1)
        (removePolicyLoop oracle
          (byIndex policyByPSPTParentAnnotation st.policyCache obj.name)
          1 [] st.policyStore).trace st.roleStore).trace ∧
    (Lifecycle.Remove oracle st obj).state.policyStore =
      (removePolicyLoop oracle
        (byIndex policyByPSPTParentAnnotation st.policyCache obj.name)
        1 [] st.policyStore).store ∧
    (Lifecycle.Remove oracle st obj).state.roleStore =
      (removeRoleLoop oracle (byIndex clusterRoleByPSPTName st.roleCache obj.name)
        ((removePolicyLoop oracle
          (byIndex policyByPSPTParentAnnotation st.policyCache obj.name)
          1 [] st.policyStore).nextOp + 1)
        (removePolicyLoop oracle
          (byIndex policyByPSPTParentAnnotation st.policyCache obj.name)
          1 [] st.policyStore).trace st.roleStore).store := by
  cases h0 : oracle 0 with
  | ok =>
    have hrm : Lifecycle.Remove oracle st obj
        = finishRemovePolicies oracle st obj (removePolicyLoop oracle
            (byIndex policyByPSPTParentAnnotation st.policyCache obj.name)
            1 [] st.policyStore) := by
      simp only [Lifecycle.Remove, h0]
    rw [hrm] at hok
    cases hpe : (removePolicyLoop oracle
        (byIndex policyByPSPTParentAnnotation st.policyCache obj.name)
        1 [] st.policyStore).err with
    | some e =>
      simp only [finishRemovePolicies, hpe] at hok
      exact absurd hok (by simp)
    | none =>
      cases h1 : oracle (removePolicyLoop oracle
          (byIndex policyByPSPTParentAnnotation st.policyCache obj.name)
          1 [] st.policyStore).nextOp with
      | ok =>
        have hrm2 : finishRemovePolicies oracle st obj (removePolicyLoop oracle
            (byIndex policyByPSPTParentAnnotation st.policyCache obj.name)
            1 [] st.policyStore)
            = finishRemoveRoles st obj
              (removePolicyLoop oracle
                (byIndex policyByPSPTParentAnnotation st.policyCache obj.name)
                1 [] st.policyStore)
              (removeRoleLoop oracle (byIndex clusterRoleByPSPTName st.roleCache obj.name)
                ((removePolicyLoop oracle
                  (byIndex policyByPSPTParentAnnotation st.policyCache obj.name)
                  1 [] st.policyStore).nextOp + 1)
                (removePolicyLoop oracle
                  (byIndex policyByPSPTParentAnnotation st.policyCache obj.name)
                  1 [] st.policyStore).trace st.roleStore) := by
          simp only [finishRemovePolicies, hpe, h1]
        rw [hrm2] at hok
        cases hre : (removeRoleLoop oracle
            (byIndex clusterRoleByPSPTName st.roleCache obj.name)
            ((removePolicyLoop oracle
              (byIndex policyByPSPTParentAnnotation st.policyCache obj.name)
              1 [] st.policyStore).nextOp + 1)
            (removePolicyLoop oracle
              (byIndex policyByPSPTParentAnnotation st.policyCache obj.name)
              1 [] st.policyStore).trace st.roleStore).err with
        | none =>
          refine ⟨rfl, rfl, rfl, ?_, ?_, ?_, ?_⟩
          · simp only [finishRemoveRoles, hre, LifecycleResult.ok.injEq] at hok
            exact hok.symm
          · rw [hrm, hrm2]
            simp only [finishRemoveRoles, hre]
          · rw [hrm, hrm2]
            simp only [finishRemoveRoles, hre]
          · rw [hrm, hrm2]
            simp only [finishRemoveRoles, hre]
        | some e =>
          simp only [finishRemoveRoles, hre] at hok
          exact absurd hok (by simp)
      | notFound =>
        simp only [finishRemovePolicies, hpe, h1] at hok
        exact absurd hok (by simp)
      | err =>
        simp only [finishRemovePolicies, hpe, h1] at hok
        exact absurd hok (by simp)
  | notFound =>
    simp only [Lifecycle.Remove, h0] at hok
    exact absurd hok (by simp)
  | err =>
    simp only [Lifecycle.Remove, h0] at hok
    exact absurd hok (by simp)

/-- Every store call in an `Updated` trace is the write-back of the synced
deep copy of some policy returned by the index lookup whose source-version
annotation was stale. -/
theorem Updated_trace_writes (oracle : Oracle) (st : SyncState) (obj : Template) :
    ∀ c ∈ (Lifecycle.Updated oracle st obj).trace,
      ∃ p q, K8sObject.psp p ∈ byIndex policyByPSPTParentAnnotation
          st.policyCache obj.name ∧
        annGet p.annotations podSecurityPolicyTemplateVersionAnnotationKey
          ≠ obj.resourceVersion ∧
        syncPolicyToTemplate p obj = some q ∧ c = StoreCall.updatePolicy q := by
  intro c hc
  cases h0 : oracle 0 with
  | ok =>
    have hup : Lifecycle.Updated oracle st obj
        = finishUpdated st obj (updatedLoop oracle obj
            (byIndex policyByPSPTParentAnnotation st.policyCache obj.name)
            1 [] st.policyStore) := by
      simp only [Lifecycle.Updated, h0]
    rw [hup] at hc
    have hc' : c ∈ (updatedLoop oracle obj
        (byIndex policyByPSPTParentAnnotation st.policyCache obj.name)
        1 [] st.policyStore).trace := by
      cases he : (updatedLoop oracle obj
          (byIndex policyByPSPTParentAnnotation st.policyCache obj.name)
          1 [] st.policyStore).err with
      | none => simpa only [finishUpdated, he] using hc
      | some e => simpa only [finishUpdated, he] using hc
    rcases updatedLoop_writes oracle obj _ 1 [] st.policyStore c hc' with
      h | ⟨p, q, hm, hstale, hs, hcq⟩
    · exact absurd h (List.not_mem_nil c)
    · exact ⟨p, q, hm, hstale, hs, hcq⟩
  | notFound =>
    simp only [Lifecycle.Updated, h0] at hc
    exact absurd hc (List.not_mem_nil c)
  | err =>
    simp only [Lifecycle.Updated, h0] at hc
    exact absurd hc (List.not_mem_nil c)

/-! ### C9 — no nil-map write -/

/-- Claim C9: every policy returned by the policy index lookup carries a
non-nil annotation map (the extractor filters out objects whose parent
annotation is empty, which covers a nil map), so the write of the
source-version annotation onto the deep copy is well-defined and `Updated`
can never end in the nil-map-write panic. -/
theorem C9_no_nil_map_panic :
    (∀ (cache : List K8sObject) (key : String) (p : PodSecurityPolicy),
      K8sObject.psp p ∈ byIndex policyByPSPTParentAnnotation cache key →
      p.annotations ≠ none) ∧
    (∀ (oracle : Oracle) (st : SyncState) (obj : Template),
      (Lifecycle.Updated oracle st obj).res ≠ LifecycleResult.fail SyncErr.nilMapPanic) := by
  have h1 : ∀ (cache : List K8sObject) (key : String) (p : PodSecurityPolicy),
      K8sObject.psp p ∈ byIndex policyByPSPTParentAnnotation cache key →
      p.annotations ≠ none := by
    intro cache key p hp
    obtain ⟨_, q, he, hk, hne⟩ := mem_byIndex_policy hp
    have hpq : p = q := by simpa using he
    subst hpq
    exact annGet_ne_of_ne_empty hk hne
  refine ⟨h1, ?_⟩
  intro oracle st obj
  cases h0 : oracle 0 with
  | ok =>
    have hup : Lifecycle.Updated oracle st obj
        = finishUpdated st obj (updatedLoop oracle obj
            (byIndex policyByPSPTParentAnnotation st.policyCache obj.name)
            1 [] st.policyStore) := by
      simp only [Lifecycle.Updated, h0]
    rw [hup]
    have hloop := updatedLoop_no_nil_panic oracle obj
      (byIndex policyByPSPTParentAnnotation st.policyCache obj.name) 1 [] st.policyStore
      (fun p hp => h1 _ _ p hp)
    cases he : (updatedLoop oracle obj
        (byIndex policyByPSPTParentAnnotation st.policyCache obj.name)
        1 [] st.policyStore).err with
    | none => simp only [finishUpdated, he]; simp
    | some e =>
      simp only [finishUpdated, he]
      intro hcon
      have he2 : e = SyncErr.nilMapPanic := by simpa using hcon
      exact hloop (he2 ▸ he)
  | notFound => simp only [Lifecycle.Updated, h0]; simp
  | err => simp only [Lifecycle.Updated, h0]; simp

/-- Witness for C9: the concrete indexed policy has a non-nil annotation
map, and the concrete run of `Updated` does not hit the nil-map panic. -/
theorem C9_witness :
    exPolicy.annotations ≠ none ∧
    (Lifecycle.Updated exOracleOk exState exTemplate).res
      ≠ LifecycleResult.fail SyncErr.nilMapPanic :=
  ⟨C9_no_nil_map_panic.1 [K8sObject.psp exPolicy] "t1" exPolicy (by decide),
    C9_no_nil_map_panic.2 exOracleOk exState exTemplate⟩

/-! ### C10 — the cached objects are never mutated -/

/-- Claim C10: `Updated` leaves both informer caches untouched — every
cached object is unchanged by the invocation — and every object it sends
to the store is the synced deep copy of a cached policy, not the cached
object itself. -/
theorem C10_cache_frame (oracle : Oracle) (st : SyncState) (obj : Template) :
    (Lifecycle.Updated oracle st obj).state.policyCache = st.policyCache ∧
    (Lifecycle.Updated oracle st obj).state.roleCache = st.roleCache ∧
    (∀ c ∈ (Lifecycle.Updated oracle st obj).trace,
      ∃ p q, K8sObject.psp p ∈ st.policyCache ∧
        syncPolicyToTemplate p obj = some q ∧ c = StoreCall.updatePolicy q) := by
  refine ⟨?_, ?_, ?_⟩
  · cases h0 : oracle 0 with
    | ok =>
      have hup : Lifecycle.Updated oracle st obj
          = finishUpdated st obj (updatedLoop oracle obj
              (byIndex policyByPSPTParentAnnotation st.policyCache obj.name)
              1 [] st.policyStore) := by
        simp only [Lifecycle.Updated, h0]
      rw [hup]
      cases he : (updatedLoop oracle obj
          (byIndex policyByPSPTParentAnnotation st.policyCache obj.name)
          1 [] st.policyStore).err with
      | none => simp only [finishUpdated, he]
      | some e => simp only [finishUpdated, he]
    | notFound => simp only [Lifecycle.Updated, h0]
    | err => simp only [Lifecycle.Updated, h0]
  · cases h0 : oracle 0 with
    | ok =>
      have hup : Lifecycle.Updated oracle st obj
          = finishUpdated st obj (updatedLoop oracle obj
              (byIndex policyByPSPTParentAnnotation st.policyCache obj.name)
              1 [] st.policyStore) := by
        simp only [Lifecycle.Updated, h0]
      rw [hup]
      cases he : (updatedLoop oracle obj
          (byIndex policyByPSPTParentAnnotation st.policyCache obj.name)
          1 [] st.policyStore).err with
      | none => simp only [finishUpdated, he]
      | some e => simp only [finishUpdated, he]
    | notFound => simp only [Lifecycle.Updated, h0]
    | err => simp only [Lifecycle.Updated, h0]
  · intro c hc
    obtain ⟨p, q, hm, _, hs, hcq⟩ := Updated_trace_writes oracle st obj c hc
    exact ⟨p, q, (mem_byIndex.mp hm).1, hs, hcq⟩

/-! ### C1 — convergence of Updated -/

/-- Claim C1: when `Updated` succeeds it returns the template itself, and
for every indexed policy whose source-version annotation differed from the
template's resource version, the synced deep copy (spec replaced by the
template's, source-version annotation set to its version) was written back
to the store, so the store entry under that policy's name now mirrors the
template's spec and version. -/
theorem C1_updated_convergence (oracle : Oracle) (st : SyncState) (obj : Template)
    (r : Option Template)
    (hok : (Lifecycle.Updated oracle st obj).res = LifecycleResult.ok r) :
    r = some obj ∧
    ∀ p, K8sObject.psp p ∈ byIndex policyByPSPTParentAnnotation st.policyCache obj.name →
      annGet p.annotations podSecurityPolicyTemplateVersionAnnotationKey
        ≠ obj.resourceVersion →
      (∃ q, syncPolicyToTemplate p obj = some q ∧ q.spec = obj.spec ∧
        policyCurrent obj q ∧
        StoreCall.updatePolicy q ∈ (Lifecycle.Updated oracle st obj).trace) ∧
      convergedAt obj (Lifecycle.Updated oracle st obj).state.policyStore p.name := by
  obtain ⟨h0, he, hr, htr, hst⟩ := Updated_ok_destruct oracle st obj r hok
  refine ⟨hr, ?_⟩
  intro p hp hstale
  obtain ⟨q, hq, hqm⟩ := updatedLoop_success_writes oracle obj _ 1 [] st.policyStore
    he p hp hstale
  obtain ⟨hqn, hqs, hqc⟩ := syncPolicyToTemplate_eq_some hq
  refine ⟨⟨q, hq, hqs, hqc, by rw [htr]; exact hqm⟩, ?_⟩
  rw [hst]
  exact updatedLoop_success_converged oracle obj _ 1 [] st.policyStore he p hp hstale

/-- Witness for C1: on the concrete environment the run succeeds and the
stale policy p1 ends up converged to the template's spec and version. -/
theorem C1_witness :
    (Lifecycle.Updated exOracleOk exState exTemplate).res
      = LifecycleResult.ok (some exTemplate) ∧
    convergedAt exTemplate
      (Lifecycle.Updated exOracleOk exState exTemplate).state.policyStore "p1" := by
  refine ⟨by decide, ?_⟩
  exact ((C1_updated_convergence exOracleOk exState exTemplate (some exTemplate)
    (by decide)).2 exPolicy (by decide) (by decide)).2

/-! ### C2 — idempotence of Updated -/

/-- Claim C2: every store write of an `Updated` invocation is for an
indexed policy whose source-version annotation did not match (policies
whose annotation already equals the template's resource version are never
written), and after a successful invocation whose writes have been
absorbed by the change-notification cache, a second `Updated` for the same
template issues zero store calls, whatever the second schedule. -/
theorem C2_updated_idempotent (oracle : Oracle) (st : SyncState) (obj : Template) :
    (∀ c ∈ (Lifecycle.Updated oracle st obj).trace,
      ∃ p q, K8sObject.psp p ∈ byIndex policyByPSPTParentAnnotation
          st.policyCache obj.name ∧
        ¬ policyCurrent obj p ∧ syncPolicyToTemplate p obj = some q ∧
        c = StoreCall.updatePolicy q) ∧
    (∀ r, (Lifecycle.Updated oracle st obj).res = LifecycleResult.ok r →
      ∀ oracle2 : Oracle,
        (Lifecycle.Updated oracle2
          (syncedState st (Lifecycle.Updated oracle st obj)) obj).trace = []) := by
  constructor
  · intro c hc
    exact Updated_trace_writes oracle st obj c hc
  · intro r hok oracle2
    obtain ⟨h0, he, hr, htr, hst⟩ := Updated_ok_destruct oracle st obj r hok
    have hw : ∀ w, StoreCall.updatePolicy w ∈ (Lifecycle.Updated oracle st obj).trace →
        policyCurrent obj w := by
      intro w hwm
      obtain ⟨p, q, _, _, hs, hcq⟩ := Updated_trace_writes oracle st obj _ hwm
      have hwq : w = q := by simpa using hcq
      exact hwq ▸ (syncPolicyToTemplate_eq_some hs).2.2
    have hs2 : ∀ p, K8sObject.psp p ∈ byIndex policyByPSPTParentAnnotation
        st.policyCache obj.name →
        ¬ policyCurrent obj p → ∃ q, syncPolicyToTemplate p obj = some q ∧
          StoreCall.updatePolicy q ∈ (Lifecycle.Updated oracle st obj).trace := by
      intro p hp hnc
      obtain ⟨q, hq, hqm⟩ := updatedLoop_success_writes oracle obj _ 1 [] st.policyStore
        he p hp hnc
      exact ⟨q, hq, by rw [htr]; exact hqm⟩
    have hcur := syncCache_current obj st.policyCache
      (Lifecycle.Updated oracle st obj).trace hw hs2
    cases h02 : oracle2 0 with
    | ok =>
      have hup2 : Lifecycle.Updated oracle2
          (syncedState st (Lifecycle.Updated oracle st obj)) obj
          = finishUpdated (syncedState st (Lifecycle.Updated oracle st obj)) obj
            (updatedLoop oracle2 obj
              (byIndex policyByPSPTParentAnnotation
                (syncedState st (Lifecycle.Updated oracle st obj)).policyCache obj.name)
              1 [] (syncedState st (Lifecycle.Updated oracle st obj)).policyStore) := by
        simp only [Lifecycle.Updated, h02]
      rw [hup2]
      have hloop := updatedLoop_all_current oracle2 obj
        (byIndex policyByPSPTParentAnnotation
          (syncedState st (Lifecycle.Updated oracle st obj)).policyCache obj.name)
        1 [] (syncedState st (Lifecycle.Updated oracle st obj)).policyStore
        (fun o ho => hcur o ho)
      rw [hloop]
      rfl
    | notFound => simp only [Lifecycle.Updated, h02]
    | err => simp only [Lifecycle.Updated, h02]

/-- Witness for C2: on the concrete environment the first run succeeds and
the second run over the synced cache issues no store calls. -/
theorem C2_witness :
    (Lifecycle.Updated exOracleOk exState exTemplate).res
      = LifecycleResult.ok (some exTemplate) ∧
    (Lifecycle.Updated exOracleOk
      (syncedState exState (Lifecycle.Updated exOracleOk exState exTemplate))
      exTemplate).trace = [] := by
  refine ⟨by decide, ?_⟩
  exact (C2_updated_idempotent exOracleOk exState exTemplate).2 (some exTemplate)
    (by decide) exOracleOk

theorem finishRemoveRoles_trace (st : SyncState) (obj : Template)
    (pout : LoopOut (List PodSecurityPolicy)) (rout : LoopOut (List ClusterRole)) :
    (finishRemoveRoles st obj pout rout).trace = rout.trace := by
  cases hre : rout.err with
  | none => simp only [finishRemoveRoles, hre]
  | some e => simp only [finishRemoveRoles, hre]

/-! ### C3 — cascading delete -/

/-- An environment with empty caches and stores. -/
def exEmptyState : SyncState := ⟨[], [], [], []⟩

/-- Claim C3: when `Remove` succeeds it returns the template, has issued a
delete-by-name for every indexed policy and a delete-by-namespace-and-name
for every indexed cluster role, and the final stores no longer hold any of
them; when both lookups succeed and return nothing (as on a second
invocation), `Remove` issues no store calls and succeeds as a no-op. -/
theorem C3_remove_cascade (oracle : Oracle) (st : SyncState) (obj : Template) :
    (∀ r, (Lifecycle.Remove oracle st obj).res = LifecycleResult.ok r →
      r = some obj ∧
      (∀ p, K8sObject.psp p ∈ byIndex policyByPSPTParentAnnotation
          st.policyCache obj.name →
        StoreCall.deletePolicy p.name ∈ (Lifecycle.Remove oracle st obj).trace ∧
        findPolicy (Lifecycle.Remove oracle st obj).state.policyStore p.name = none) ∧
      (∀ cr, K8sObject.clusterRole cr ∈ byIndex clusterRoleByPSPTName
          st.roleCache obj.name →
        StoreCall.deleteClusterRole cr.namespaceName cr.name
          ∈ (Lifecycle.Remove oracle st obj).trace ∧
        findClusterRole (Lifecycle.Remove oracle st obj).state.roleStore
          cr.namespaceName cr.name = none)) ∧
    (byIndex policyByPSPTParentAnnotation st.policyCache obj.name = [] →
      byIndex clusterRoleByPSPTName st.roleCache obj.name = [] →
      oracle 0 = StoreRes.ok → oracle 1 = StoreRes.ok →
      Lifecycle.Remove oracle st obj = ⟨st, [], LifecycleResult.ok (some obj)⟩) := by
  constructor
  · intro r hok
    obtain ⟨h0, hpe, hre, hr, htr, hps, hrs⟩ := Remove_ok_destruct oracle st obj r hok
    refine ⟨hr, ?_, ?_⟩
    · intro p hp
      obtain ⟨hmem, hfind⟩ := removePolicyLoop_success_deletes oracle _ 1 []
        st.policyStore hpe p hp
      constructor
      · rw [htr]
        exact removeRoleLoop_trace_mono oracle _ _ _ _ _ hmem
      · rw [hps]
        exact hfind
    · intro cr hcr
      obtain ⟨hmem, hfind⟩ := removeRoleLoop_success_deletes oracle _ _ _
        st.roleStore hre cr hcr
      exact ⟨by rw [htr]; exact hmem, by rw [hrs]; exact hfind⟩
  · intro hP hR h0 h1
    have hup : Lifecycle.Remove oracle st obj
        = finishRemovePolicies oracle st obj (removePolicyLoop oracle
            (byIndex policyByPSPTParentAnnotation st.policyCache obj.name)
            1 [] st.policyStore) := by
      simp only [Lifecycle.Remove, h0]
    rw [hup, hP]
    simp only [removePolicyLoop, finishRemovePolicies, h1, hR, removeRoleLoop,
      finishRemoveRoles]

/-- Witness for C3: on the concrete environment `Remove` succeeds, deletes
policy p1 and role r1 from the stores, and on an empty environment it is a
successful no-op. -/
theorem C3_witness :
    (Lifecycle.Remove exOracleOk exState exTemplate).res
      = LifecycleResult.ok (some exTemplate) ∧
    (StoreCall.deletePolicy "p1" ∈ (Lifecycle.Remove exOracleOk exState exTemplate).trace ∧
      findPolicy (Lifecycle.Remove exOracleOk exState exTemplate).state.policyStore "p1"
        = none) ∧
    (StoreCall.deleteClusterRole "ns1" "r1"
        ∈ (Lifecycle.Remove exOracleOk exState exTemplate).trace ∧
      findClusterRole (Lifecycle.Remove exOracleOk exState exTemplate).state.roleStore
        "ns1" "r1" = none) ∧
    Lifecycle.Remove exOracleOk exEmptyState exTemplate
      = ⟨exEmptyState, [], LifecycleResult.ok (some exTemplate)⟩ := by
  refine ⟨by decide, ?_, ?_, ?_⟩
  · exact ((C3_remove_cascade exOracleOk exState exTemplate).1 (some exTemplate)
      (by decide)).2.1 exPolicy (by decide)
  · exact ((C3_remove_cascade exOracleOk exState exTemplate).1 (some exTemplate)
      (by decide)).2.2 exRole (by decide)
  · exact (C3_remove_cascade exOracleOk exEmptyState exTemplate).2 (by decide)
      (by decide) rfl rfl

/-! ### C6 — policies are deleted before roles -/

/-- Claim C6: the trace of any `Remove` invocation splits into a block of
policy deletes followed by a block of cluster-role deletes, and if any
role delete was issued at all then every indexed policy's delete already
appears in the policy block. -/
theorem C6_remove_ordering (oracle : Oracle) (st : SyncState) (obj : Template) :
    ∃ tp ts, (Lifecycle.Remove oracle st obj).trace = tp ++ ts ∧
      (∀ c ∈ tp, ∃ n, c = StoreCall.deletePolicy n) ∧
      (∀ c ∈ ts, ∃ ns n, c = StoreCall.deleteClusterRole ns n) ∧
      (ts ≠ [] → ∀ p, K8sObject.psp p ∈ byIndex policyByPSPTParentAnnotation
          st.policyCache obj.name →
        StoreCall.deletePolicy p.name ∈ tp) := by
  cases h0 : oracle 0 with
  | ok =>
    have hup : Lifecycle.Remove oracle st obj
        = finishRemovePolicies oracle st obj (removePolicyLoop oracle
            (byIndex policyByPSPTParentAnnotation st.policyCache obj.name)
            1 [] st.policyStore) := by
      simp only [Lifecycle.Remove, h0]
    obtain ⟨ds, htr, hds⟩ := removePolicyLoop_trace_shape oracle
      (byIndex policyByPSPTParentAnnotation st.policyCache obj.name) 1 [] st.policyStore
    rw [List.nil_append] at htr
    cases hpe : (removePolicyLoop oracle
        (byIndex policyByPSPTParentAnnotation st.policyCache obj.name)
        1 [] st.policyStore).err with
    | some e =>
      refine ⟨(removePolicyLoop oracle
          (byIndex policyByPSPTParentAnnotation st.policyCache obj.name)
          1 [] st.policyStore).trace, [], ?_, ?_, ?_, ?_⟩
      · rw [hup]
        simp only [finishRemovePolicies, hpe]
        rw [List.append_nil]
      · intro c hc
        exact hds c (htr ▸ hc)
      · intro c hc
        exact absurd hc (List.not_mem_nil c)
      · intro hne
        exact absurd rfl hne
    | none =>
      cases h1 : oracle (removePolicyLoop oracle
          (byIndex policyByPSPTParentAnnotation st.policyCache obj.name)
          1 [] st.policyStore).nextOp with
      | ok =>
        have hrm2 : finishRemovePolicies oracle st obj (removePolicyLoop oracle
            (byIndex policyByPSPTParentAnnotation st.policyCache obj.name)
            1 [] st.policyStore)
            = finishRemoveRoles st obj
              (removePolicyLoop oracle
                (byIndex policyByPSPTParentAnnotation st.policyCache obj.name)
                1 [] st.policyStore)
              (removeRoleLoop oracle (byIndex clusterRoleByPSPTName st.roleCache obj.name)
                ((removePolicyLoop oracle
                  (byIndex policyByPSPTParentAnnotation st.policyCache obj.name)
                  1 [] st.policyStore).nextOp + 1)
                (removePolicyLoop oracle
                  (byIndex policyByPSPTParentAnnotation st.policyCache obj.name)
                  1 [] st.policyStore).trace st.roleStore) := by
          simp only [finishRemovePolicies, hpe, h1]
        obtain ⟨ds2, htr2, hds2⟩ := removeRoleLoop_trace_shape oracle
          (byIndex clusterRoleByPSPTName st.roleCache obj.name)
          ((removePolicyLoop oracle
            (byIndex policyByPSPTParentAnnotation st.policyCache obj.name)
            1 [] st.policyStore).nextOp + 1)
          (removePolicyLoop oracle
            (byIndex policyByPSPTParentAnnotation st.policyCache obj.name)
            1 [] st.policyStore).trace st.roleStore
        refine ⟨(removePolicyLoop oracle
            (byIndex policyByPSPTParentAnnotation st.policyCache obj.name)
            1 [] st.policyStore).trace, ds2, ?_, ?_, ?_, ?_⟩
        · rw [hup, hrm2, finishRemoveRoles_trace]
          exact htr2
        · intro c hc
          exact hds c (htr ▸ hc)
        · intro c hc
          exact hds2 c hc
        · intro _ p hp
          exact (removePolicyLoop_success_deletes oracle _ 1 [] st.policyStore
            hpe p hp).1
      | notFound =>
        refine ⟨(removePolicyLoop oracle
            (byIndex policyByPSPTParentAnnotation st.policyCache obj.name)
            1 [] st.policyStore).trace, [], ?_, ?_, ?_, ?_⟩
        · rw [hup]
          simp only [finishRemovePolicies, hpe, h1]
          rw [List.append_nil]
        · intro c hc
          exact hds c (htr ▸ hc)
        · intro c hc
          exact absurd hc (List.not_mem_nil c)
        · intro hne
          exact absurd rfl hne
      | err =>
        refine ⟨(removePolicyLoop oracle
            (byIndex policyByPSPTParentAnnotation st.policyCache obj.name)
            1 [] st.policyStore).trace, [], ?_, ?_, ?_, ?_⟩
        · rw [hup]
          simp only [finishRemovePolicies, hpe, h1]
          rw [List.append_nil]
        · intro c hc
          exact hds c (htr ▸ hc)
        · intro c hc
          exact absurd hc (List.not_mem_nil c)
        · intro hne
          exact absurd rfl hne
  | notFound =>
    refine ⟨[], [], ?_, ?_, ?_, ?_⟩
    · simp only [Lifecycle.Remove, h0]
      rfl
    · intro c hc
      exact absurd hc (List.not_mem_nil c)
    · intro c hc
      exact absurd hc (List.not_mem_nil c)
    · intro hne
      exact absurd rfl hne
  | err =>
    refine ⟨[], [], ?_, ?_, ?_, ?_⟩
    · simp only [Lifecycle.Remove, h0]
      rfl
    · intro c hc
      exact absurd hc (List.not_mem_nil c)
    · intro c hc
      exact absurd hc (List.not_mem_nil c)
    · intro hne
      exact absurd rfl hne

/-- Witness for C6 at a concrete input. -/
theorem C6_witness :
    ∃ tp ts, (Lifecycle.Remove exOracleOk exState exTemplate).trace = tp ++ ts ∧
      (∀ c ∈ tp, ∃ n, c = StoreCall.deletePolicy n) ∧
      (∀ c ∈ ts, ∃ ns n, c = StoreCall.deleteClusterRole ns n) ∧
      (ts ≠ [] → ∀ p, K8sObject.psp p ∈ byIndex policyByPSPTParentAnnotation
          exState.policyCache exTemplate.name →
        StoreCall.deletePolicy p.name ∈ tp) :=
  C6_remove_ordering exOracleOk exState exTemplate

/-! ### C7 — a not-found delete is a fatal error, not a no-op -/

/-- Claim C7, counterexample: with one indexed policy and a store whose
delete call reports not-found, `Remove` does not continue as a successful
no-op — it aborts and returns the deleting-policy error. -/
theorem C7_counterexample :
    (Lifecycle.Remove exOracleNotFound exState exTemplate).res
      = LifecycleResult.fail SyncErr.deletingPolicy ∧
    (Lifecycle.Remove exOracleNotFound exState exTemplate).res
      ≠ LifecycleResult.ok (some exTemplate) := by
  exact ⟨by decide, by decide⟩

/-- Claim C7 (amended): `Remove` treats a delete call that reports
not-found like any other delete failure — it aborts immediately with the
deleting-policy error, issues no further deletions, and leaves the stores
unchanged; an already-absent object is tolerated only in that the index
lookup no longer returns it, so a repeat `Remove` whose lookups return
nothing succeeds as a no-op. -/
theorem C7_notfound_aborts (oracle : Oracle) (st : SyncState) (obj : Template)
    (p : PodSecurityPolicy) (rest : List K8sObject)
    (hidx : byIndex policyByPSPTParentAnnotation st.policyCache obj.name
      = K8sObject.psp p :: rest)
    (h0 : oracle 0 = StoreRes.ok) (h1 : oracle 1 = StoreRes.notFound) :
    (Lifecycle.Remove oracle st obj).res = LifecycleResult.fail SyncErr.deletingPolicy ∧
    (Lifecycle.Remove oracle st obj).trace = [StoreCall.deletePolicy p.name] ∧
    (Lifecycle.Remove oracle st obj).state = st := by
  have hup : Lifecycle.Remove oracle st obj
      = finishRemovePolicies oracle st obj (removePolicyLoop oracle
          (byIndex policyByPSPTParentAnnotation st.policyCache obj.name)
          1 [] st.policyStore) := by
    simp only [Lifecycle.Remove, h0]
  have hloop : removePolicyLoop oracle
      (byIndex policyByPSPTParentAnnotation st.policyCache obj.name) 1 [] st.policyStore
      = ⟨1 + 1, [] ++ [StoreCall.deletePolicy p.name], st.policyStore,
          some SyncErr.deletingPolicy⟩ := by
    rw [hidx]
    simp only [removePolicyLoop, h1]
  rw [hup, hloop]
  simp [finishRemovePolicies]

/-- Witness for the amended C7 at the concrete input. -/
theorem C7_witness :
    byIndex policyByPSPTParentAnnotation exState.policyCache exTemplate.name
      = K8sObject.psp exPolicy :: [] ∧
    exOracleNotFound 0 = StoreRes.ok ∧ exOracleNotFound 1 = StoreRes.notFound ∧
    (Lifecycle.Remove exOracleNotFound exState exTemplate).trace
      = [StoreCall.deletePolicy "p1"] := by
  refine ⟨by decide, rfl, rfl, ?_⟩
  exact (C7_notfound_aborts exOracleNotFound exState exTemplate exPolicy []
    (by decide) rfl rfl).2.1

/-! ### C8 — every failure is surfaced and aborts the invocation -/

theorem updatedLoop_second_write_fails (oracle : Oracle) (obj : Template)
    (p q p' q' : PodSecurityPolicy) (rest : List K8sObject) (k : Nat)
    (tr : List StoreCall) (store : List PodSecurityPolicy)
    (hp : annGet p.annotations podSecurityPolicyTemplateVersionAnnotationKey
      ≠ obj.resourceVersion)
    (hq : annGet q.annotations podSecurityPolicyTemplateVersionAnnotationKey
      ≠ obj.resourceVersion)
    (hsp : syncPolicyToTemplate p obj = some p')
    (hsq : syncPolicyToTemplate q obj = some q')
    (h1 : oracle k = StoreRes.ok) (h2 : oracle (k + 1) ≠ StoreRes.ok) :
    updatedLoop oracle obj (K8sObject.psp p :: K8sObject.psp q :: rest) k tr store
      = ⟨k + 1 + 1, (tr ++ [StoreCall.updatePolicy p']) ++ [StoreCall.updatePolicy q'],
          upsertPolicy store p', some SyncErr.updatingPsp⟩ := by
  simp only [updatedLoop]
  rw [if_neg hp]
  simp only [hsp, h1]
  rw [if_neg hq]
  simp only [hsq]

/-- Claim C8: an index-lookup failure aborts `Updated` and `Remove` with
the lookup error before any store call and leaves the state unchanged;
when the K-th of N policy deletions of `Remove` fails, the invocation
returns the deleting-policy error, its trace holds exactly the K issued
deletes and no role call, the first K−1 deletions remain applied and the
role store is untouched; and when the second policy write of `Updated`
fails, the invocation returns the updating error, its trace holds exactly
the two issued writes, and only the first write's effect remains. -/
theorem C8_error_propagation :
    (∀ (oracle : Oracle) (st : SyncState) (obj : Template), oracle 0 ≠ StoreRes.ok →
      Lifecycle.Updated oracle st obj
        = ⟨st, [], LifecycleResult.fail SyncErr.gettingPolicies⟩) ∧
    (∀ (oracle : Oracle) (st : SyncState) (obj : Template), oracle 0 ≠ StoreRes.ok →
      Lifecycle.Remove oracle st obj
        = ⟨st, [], LifecycleResult.fail SyncErr.gettingPolicies⟩) ∧
    (∀ (st : SyncState) (obj : Template) (K : Nat), 1 ≤ K →
      K ≤ (pspNames (byIndex policyByPSPTParentAnnotation
        st.policyCache obj.name)).length →
      Lifecycle.Remove (fun i => if i < K then StoreRes.ok else StoreRes.err) st obj =
        ⟨{ st with policyStore := (deleteAllPolicies st.policyStore
            ((pspNames (byIndex policyByPSPTParentAnnotation
              st.policyCache obj.name)).take (K - 1))) },
          ((pspNames (byIndex policyByPSPTParentAnnotation
            st.policyCache obj.name)).take K).map StoreCall.deletePolicy,
          LifecycleResult.fail SyncErr.deletingPolicy⟩) ∧
    (∀ (st : SyncState) (obj : Template) (p q p' q' : PodSecurityPolicy)
      (rest : List K8sObject),
      byIndex policyByPSPTParentAnnotation st.policyCache obj.name
        = K8sObject.psp p :: K8sObject.psp q :: rest →
      annGet p.annotations podSecurityPolicyTemplateVersionAnnotationKey
        ≠ obj.resourceVersion →
      annGet q.annotations podSecurityPolicyTemplateVersionAnnotationKey
        ≠ obj.resourceVersion →
      syncPolicyToTemplate p obj = some p' →
      syncPolicyToTemplate q obj = some q' →
      Lifecycle.Updated (fun i => if i < 2 then StoreRes.ok else StoreRes.err) st obj =
        ⟨{ st with policyStore := upsertPolicy st.policyStore p' },
          [StoreCall.updatePolicy p', StoreCall.updatePolicy q'],
          LifecycleResult.fail SyncErr.updatingPsp⟩) := by
  refine ⟨?_, ?_, ?_, ?_⟩
  · intro oracle st obj h
    cases h0 : oracle 0 with
    | ok => exact absurd h0 h
    | notFound => simp only [Lifecycle.Updated, h0]
    | err => simp only [Lifecycle.Updated, h0]
  · intro oracle st obj h
    cases h0 : oracle 0 with
    | ok => exact absurd h0 h
    | notFound => simp only [Lifecycle.Remove, h0]
    | err => simp only [Lifecycle.Remove, h0]
  · intro st obj K hK1 hK2
    obtain ⟨j, rfl⟩ : ∃ j, K = j + 1 := ⟨K - 1, by omega⟩
    have h0 : (fun i => if i < j + 1 then StoreRes.ok else StoreRes.err) 0
        = StoreRes.ok := by
      show (if 0 < j + 1 then StoreRes.ok else StoreRes.err) = StoreRes.ok
      rw [if_pos (Nat.succ_pos j)]
    have hup : Lifecycle.Remove (fun i => if i < j + 1 then StoreRes.ok else StoreRes.err)
        st obj
        = finishRemovePolicies (fun i => if i < j + 1 then StoreRes.ok else StoreRes.err)
          st obj (removePolicyLoop
            (fun i => if i < j + 1 then StoreRes.ok else StoreRes.err)
            (byIndex policyByPSPTParentAnnotation st.policyCache obj.name)
            1 [] st.policyStore) := by
      simp only [Lifecycle.Remove, h0]
    have hloop := removePolicyLoop_fail
      (fun i => if i < j + 1 then StoreRes.ok else StoreRes.err)
      (byIndex policyByPSPTParentAnnotation st.policyCache obj.name)
      1 [] st.policyStore j
      (byIndex_policy_all_psp st.policyCache obj.name)
      (by omega)
      (by
        intro i hi
        show (if 1 + i < j + 1 then StoreRes.ok else StoreRes.err) = StoreRes.ok
        rw [if_pos (by omega)])
      (by
        show (if 1 + j < j + 1 then StoreRes.ok else StoreRes.err) ≠ StoreRes.ok
        rw [if_neg (by omega)]
        simp)
    rw [hup, hloop]
    simp only [finishRemovePolicies, List.nil_append, Nat.add_sub_cancel]
  · intro st obj p q p' q' rest hidx hp hq hsp hsq
    have hup : Lifecycle.Updated (fun i => if i < 2 then StoreRes.ok else StoreRes.err)
        st obj
        = finishUpdated st obj
          (updatedLoop (fun i => if i < 2 then StoreRes.ok else StoreRes.err) obj
            (byIndex policyByPSPTParentAnnotation st.policyCache obj.name)
            1 [] st.policyStore) := rfl
    rw [hup, hidx, updatedLoop_second_write_fails
      (fun i => if i < 2 then StoreRes.ok else StoreRes.err) obj p q p' q' rest
      1 [] st.policyStore hp hq hsp hsq rfl (by decide)]
    simp [finishUpdated]

/-- The synced deep copy written for the concrete stale policy p1. -/
def exPolicySynced : PodSecurityPolicy :=
  ⟨"p1", some [(podSecurityPolicyTemplateVersionAnnotationKey, "5"),
    (podSecurityPolicyTemplateParentAnnotationKey, "t1"),
    (podSecurityPolicyTemplateVersionAnnotationKey, "4")], ⟨false⟩⟩

/-- The synced deep copy written for the concrete stale policy p2. -/
def exPolicy2Synced : PodSecurityPolicy :=
  ⟨"p2", some [(podSecurityPolicyTemplateVersionAnnotationKey, "5"),
    (podSecurityPolicyTemplateParentAnnotationKey, "t1"),
    (podSecurityPolicyTemplateVersionAnnotationKey, "3")], ⟨false⟩⟩

/-- Witness for C8: concrete instances of its four parts. -/
theorem C8_witness :
    ((fun _ : Nat => StoreRes.err) 0 ≠ StoreRes.ok ∧
      Lifecycle.Updated (fun _ => StoreRes.err) exState exTemplate
        = ⟨exState, [], LifecycleResult.fail SyncErr.gettingPolicies⟩) ∧
    Lifecycle.Remove (fun _ => StoreRes.err) exState exTemplate
      = ⟨exState, [], LifecycleResult.fail SyncErr.gettingPolicies⟩ ∧
    Lifecycle.Remove (fun i => if i < 2 then StoreRes.ok else StoreRes.err)
        exState2 exTemplate
      = ⟨{ exState2 with policyStore := (deleteAllPolicies exState2.policyStore
          ((pspNames (byIndex policyByPSPTParentAnnotation
            exState2.policyCache exTemplate.name)).take (2 - 1))) },
        ((pspNames (byIndex policyByPSPTParentAnnotation
          exState2.policyCache exTemplate.name)).take 2).map StoreCall.deletePolicy,
        LifecycleResult.fail SyncErr.deletingPolicy⟩ ∧
    Lifecycle.Updated (fun i => if i < 2 then StoreRes.ok else StoreRes.err)
        exState2 exTemplate
      = ⟨{ exState2 with policyStore := upsertPolicy exState2.policyStore exPolicySynced },
        [StoreCall.updatePolicy exPolicySynced, StoreCall.updatePolicy exPolicy2Synced],
        LifecycleResult.fail SyncErr.updatingPsp⟩ := by
  refine ⟨⟨by decide, ?_⟩, ?_, ?_, ?_⟩
  · exact C8_error_propagation.1 (fun _ => StoreRes.err) exState exTemplate (by decide)
  · exact C8_error_propagation.2.1 (fun _ => StoreRes.err) exState exTemplate (by decide)
  · exact C8_error_propagation.2.2.1 exState2 exTemplate 2 (by decide) (by decide)
  · exact C8_error_propagation.2.2.2 exState2 exTemplate exPolicy exPolicy2
      exPolicySynced exPolicy2Synced [] (by decide) (by decide) (by decide)
      (by decide) (by decide)

/-- Witness for C10 at a concrete input. -/
theorem C10_witness :
    (Lifecycle.Updated exOracleOk exState exTemplate).state.policyCache
      = exState.policyCache ∧
    (Lifecycle.Updated exOracleOk exState exTemplate).state.roleCache
      = exState.roleCache ∧
    (∀ c ∈ (Lifecycle.Updated exOracleOk exState exTemplate).trace,
      ∃ p q, K8sObject.psp p ∈ exState.policyCache ∧
        syncPolicyToTemplate p exTemplate = some q ∧ c = StoreCall.updatePolicy q) :=
  C10_cache_frame exOracleOk exState exTemplate
